import Mathlib

/-!
Verification of the process-lineage normalizer (`fix_case` in
`demo/dataSet/fix_all_data.py`).  Records are JSON-object lines; a missing
key is modelled as `none`.  The Python code mutates shared dict objects held
by the `processes` / `non_processes` lists; we model object identity by the
record's position in the input (`List.enum`) and mutation as an update of the
indexed store at that position.
-/

namespace ProcChain

/-- One telemetry record (the fields the normalizer reads or writes).
`none` models an absent key; `isRoot`/`isAlarm` model Python truthiness of
those flags. -/
structure Record where
  logType : Option String := none
  processGuid : Option String := none
  parentProcessGuid : Option String := none
  processId : Option Int := none
  processName : Option String := none
  traceId : Option String := none
  isRoot : Bool := false
  isAlarm : Bool := false
  severity : Option Int := none
deriving Repr, DecidableEq

/-- Python truthiness of an optional string: `None` and `""` are falsy. -/
def isTruthyStr : Option String → Bool
  | none => false
  | some s => decide (s ≠ "")

/-- Python `s[-n:]`: the last `n` characters (the whole string when shorter). -/
def lastN (n : Nat) (s : String) : String :=
  String.mk (s.data.drop (s.data.length - n))

/-- `f"{pfx}{guid[-8:]}"` with `guid = rec.get('processGuid', 'unknown')`
(lines 97 and 106 of fix_all_data.py). -/
def deriveTrace (pfx : String) (r : Record) : String :=
  pfx ++ lastN 8 (r.processGuid.getD "unknown")

/-- Classification, lines 16-23: records whose `logType` is `'process'`. -/
def procsOf (d : List Record) : List (Nat × Record) :=
  d.enum.filter (fun x => decide (x.2.logType = some "process"))

/-- Classification, lines 16-23: all other records. -/
def nonProcsOf (d : List Record) : List (Nat × Record) :=
  d.enum.filter (fun x => decide (¬ x.2.logType = some "process"))

/-- Root search, lines 30-34: the first process with a truthy `isRoot` or
with `processGuid == traceId` (`None == None` holds in Python, hence plain
`Option` equality). -/
def findRootPre (d : List Record) : Option (Nat × Record) :=
  (procsOf d).find? (fun x => x.2.isRoot || decide (x.2.processGuid = x.2.traceId))

/-- `p.get('severity', 0)` used as the `max` key (line 39). -/
def sevKey (x : Nat × Record) : Int :=
  x.2.severity.getD 0

/-- Python `max(processes, key=...)`: the first element attaining the
maximal key (replacement only on a strictly greater key). -/
def maxSev (l : List (Nat × Record)) : Option (Nat × Record) :=
  l.foldl
    (fun b x =>
      match b with
      | none => some x
      | some m => if sevKey m < sevKey x then some x else some m)
    none

/-- Root synthesis, lines 40-43: set `isRoot`/`isAlarm` and overwrite
`traceId` with the guid, or with `f"traceId-{pid or 999}"` when the guid key
is absent. -/
def synthRoot (e : Nat × Record) : Nat × Record :=
  (e.1,
    { e.2 with
      isRoot := true
      isAlarm := true
      traceId := some (match e.2.processGuid with
        | some g => g
        | none => "traceId-" ++ toString (e.2.processId.getD 999)) })

/-- The selected root entry: the pre-existing one, else the synthesized
severity maximum; `none` exactly when there is no process record. -/
def rootSel (d : List Record) : Option (Nat × Record) :=
  match findRootPre d with
  | some e => some e
  | none => (maxSev (procsOf d)).map synthRoot

/-- The process store after root synthesis (the fallback mutates the chosen
record in place; found roots are left as they are). -/
def procs1 (d : List Record) : List (Nat × Record) :=
  match findRootPre d with
  | some _ => procsOf d
  | none =>
    match maxSev (procsOf d) with
    | none => procsOf d
    | some m => (procsOf d).map
        (fun x => if x.1 = m.1 then (x.1, (synthRoot m).2) else x)

/-- `guid_map` lookup, lines 50-61: the map keeps only truthy guids with
last-write-wins, and the surrounding `if ... else None` guards make the
whole access yield `None` on a falsy key. -/
def guidLookup (procs : List (Nat × Record)) (g : Option String) : Option (Nat × Record) :=
  if isTruthyStr g then procs.reverse.find? (fun x => decide (x.2.processGuid = g))
  else none

/-- `parent = guid_map.get(parent_guid) if parent_guid else None` (line 58). -/
def parentE (d : List Record) (e : Nat × Record) : Option (Nat × Record) :=
  guidLookup (procs1 d) e.2.parentProcessGuid

/-- `grandparent = guid_map.get(grandparent_guid) if grandparent_guid else
None` (lines 60-61). -/
def grandE (d : List Record) (e : Nat × Record) : Option (Nat × Record) :=
  match parentE d e with
  | none => none
  | some pe => guidLookup (procs1 d) pe.2.parentProcessGuid

/-- One inner pass of `get_descendants` (lines 76-81): the processes whose
`parentProcessGuid` equals `current` and whose guid is not yet visited
(`visited` already contains `current` at this point). -/
def childMatches (procs : List (Nat × Record)) (current : Option String)
    (visited : List (Option String)) : List (Nat × Record) :=
  procs.filter
    (fun x => decide (x.2.parentProcessGuid = current ∧ x.2.processGuid ∉ visited))

/-- The BFS worklist loop of `get_descendants` (lines 64-83), made total by
a fuel argument; `none` marks fuel exhaustion with a nonempty queue (shown
below never to happen for `bfsFuel`).  Returns the appended descendant
entries and the visited set. -/
def bfs (procs : List (Nat × Record)) :
    Nat → List (Option String) → List (Option String) → List (Nat × Record) →
    Option (List (Nat × Record) × List (Option String))
  | _, [], visited, acc => some (acc, visited)
  | 0, _ :: _, _, _ => none
  | fuel + 1, current :: rest, visited, acc =>
    if current ∈ visited then bfs procs fuel rest visited acc
    else
      let visited' := current :: visited
      let news := childMatches procs current visited'
      bfs procs fuel (rest ++ news.map (fun x => x.2.processGuid)) visited' (acc ++ news)

/-- Fuel that always suffices for `bfs` (proved in `bfs_total`). -/
def bfsFuel (procs : List (Nat × Record)) : Nat :=
  (procs.length + 1) * (procs.length + 1) + 1

/-- `get_descendants(root_guid)` run on the whole process list. -/
def bfsRun (procs : List (Nat × Record)) (g : Option String) :
    Option (List (Nat × Record) × List (Option String)) :=
  bfs procs (bfsFuel procs) [g] [] []

/-- `root_descendants` (line 85): the entries collected by the BFS. -/
def descendants (d : List Record) (e : Nat × Record) : List (Nat × Record) :=
  ((bfsRun (procs1 d) e.2.processGuid).getD ([], [])).1

/-- Look up the record currently stored at position `i`. -/
def getRec (st : List (Nat × Record)) (i : Nat) : Option Record :=
  (st.find? (fun x => decide (x.1 = i))).map (fun x => x.2)

/-- A guarded in-place `traceId` assignment on the indexed store
(`if old_trace != new_trace: ... modified_count += 1`); returns the new
store and the count increment. -/
def setTraceAt (st : List (Nat × Record)) (i : Nat) (t : Option String) :
    List (Nat × Record) × Nat :=
  match st.find? (fun x => decide (x.1 = i)) with
  | none => (st, 0)
  | some x =>
    if x.2.traceId = t then (st, 0)
    else (st.map (fun y => if y.1 = i then (y.1, { y.2 with traceId := t }) else y), 1)

/-- Fold a list of `(index, new traceId)` assignments over the store,
accumulating `modified_count`. -/
def applyUpdates (st : List (Nat × Record)) (us : List (Nat × Option String)) :
    List (Nat × Record) × Nat :=
  us.foldl (fun acc u =>
    let s := setTraceAt acc.1 u.1 u.2
    (s.1, acc.2 + s.2)) (st, 0)

/-- The `traceId` rewrites of lines 94-118 in execution order: parent, then
grandparent, then every BFS descendant (the derived strings read the guid,
which no step mutates, so the snapshot values are the current ones). -/
def traceUpdates (d : List Record) (e : Nat × Record) : List (Nat × Option String) :=
  (match parentE d e with
    | none => []
    | some pe => [(pe.1, some (deriveTrace "traceId-parent-" pe.2))]) ++
  (match grandE d e with
    | none => []
    | some ge => [(ge.1, some (deriveTrace "traceId-grandpa-" ge.2))]) ++
  (descendants d e).map (fun de => (de.1, e.2.traceId))

/-- The process store and `modified_count` after all process `traceId`
rewrites. -/
def procs4 (d : List Record) (e : Nat × Record) : List (Nat × Record) × Nat :=
  applyUpdates (procs1 d) (traceUpdates d e)

/-- `valid_guids` (lines 121-127): root guid, the parent and grandparent
guids when present, and every descendant guid. -/
def validGuids (d : List Record) (e : Nat × Record) : List (Option String) :=
  e.2.processGuid ::
    ((match parentE d e with | none => [] | some pe => [pe.2.processGuid]) ++
     (match grandE d e with | none => [] | some ge => [ge.2.processGuid]) ++
     (descendants d e).map (fun de => de.2.processGuid))

/-- The pruned process list (line 131). -/
def keptProcs (d : List Record) (e : Nat × Record) : List (Nat × Record) :=
  (procs4 d e).1.filter (fun x => decide (x.2.processGuid ∈ validGuids d e))

/-- `removed_count` (lines 130-132). -/
def removedCount (d : List Record) (e : Nat × Record) : Nat :=
  (procs4 d e).1.length - (keptProcs d e).length

/-- The condition of the non-process `traceId` fix (line 139): a truthy
`traceId` different from the root's. -/
def nonProcCond (rootT : Option String) (r : Record) : Bool :=
  isTruthyStr r.traceId && decide (¬ r.traceId = rootT)

/-- The non-process `traceId` fix (lines 138-141). -/
def fixNonProc (rootT : Option String) (r : Record) : Record :=
  if nonProcCond rootT r then { r with traceId := rootT } else r

/-- The non-process store after the fix. -/
def nonFixedOf (d : List Record) (e : Nat × Record) : List (Nat × Record) :=
  (nonProcsOf d).map (fun x => (x.1, fixNonProc e.2.traceId x.2))

/-- The `modified_count` contribution of the non-process fix. -/
def nonModCount (d : List Record) (e : Nat × Record) : Nat :=
  (nonProcsOf d).countP (fun x => nonProcCond e.2.traceId x.2)

/-- `modified_count > 0 or removed_count > 0` (line 144): only then is the
file rewritten. -/
def needsWrite (d : List Record) (e : Nat × Record) : Bool :=
  decide (0 < (procs4 d e).2 + nonModCount d e ∨ 0 < removedCount d e)

/-- `p.get('processId', 0)`, the sort key of line 150. -/
def pidKey (r : Record) : Int :=
  r.processId.getD 0

/-- The sort relation of `processes.sort(key=...)`. -/
def pidLe (a b : Nat × Record) : Prop :=
  pidKey a.2 ≤ pidKey b.2

instance : DecidableRel pidLe := fun a b => Int.decLe _ _

instance : IsTotal (Nat × Record) pidLe := ⟨fun a b => Int.le_total _ _⟩

instance : IsTrans (Nat × Record) pidLe := ⟨fun _ _ _ => Int.le_trans⟩

/-- The rewritten file content (lines 146-156): alert records, file records,
registry records (all in input order, other non-process types silently
dropped), then the kept processes stably sorted by pid.  Python's `sort` is
a stable ascending sort, which `List.insertionSort` implements. -/
def serialized (d : List Record) (e : Nat × Record) : List Record :=
  ((nonFixedOf d e).filter (fun x => decide (x.2.logType = some "alert")) ++
   (nonFixedOf d e).filter (fun x => decide (x.2.logType = some "file")) ++
   (nonFixedOf d e).filter (fun x => decide (x.2.logType = some "registry")) ++
   List.insertionSort pidLe (keptProcs d e)).map (fun x => x.2)

/-- `fix_case`: the resulting file content.  With no process record, or when
nothing was modified or removed, the file is left unchanged (the in-memory
mutations are discarded). -/
def fixCase (d : List Record) : List Record :=
  match rootSel d with
  | none => d
  | some e => if needsWrite d e then serialized d e else d

/-- Group rank of the canonical output order claimed by the spec:
alert, file, registry, process. -/
def rankOf (r : Record) : Nat :=
  if r.logType = some "alert" then 0
  else if r.logType = some "file" then 1
  else if r.logType = some "registry" then 2
  else if r.logType = some "process" then 3
  else 4

/-- Modelled from the spec: the guid set of the "descendant closure of the
root (any depth downward, computed over parentProcessGuid edges)", by
iterated expansion; a record is in the closure when its parent guid is in
this set.  This is the spec's notion, to be compared with the code's
guid-keyed BFS. -/
def specDescGuids (procs : List Record) (root : Option String) : Nat → List (Option String)
  | 0 => [root]
  | n + 1 =>
    let prev := specDescGuids procs root n
    prev ++ (procs.filter
      (fun p => decide (p.parentProcessGuid ∈ prev ∧ p.processGuid ∉ prev))).map
        (fun p => p.processGuid)

/-! ### Concrete record sets used to exercise the normalizer -/

/-- A single process selected as root via `isRoot` whose guid differs from
its trace id. -/
def c1rec : Record :=
  { logType := some "process", processGuid := some "G", traceId := some "X",
    isRoot := true, processId := some 1 }

def c1d : List Record := [c1rec]

def c2R : Record :=
  { logType := some "process", processGuid := some "R", traceId := some "R",
    processId := some 1 }

def c2A : Record :=
  { logType := some "process", processGuid := some "G",
    parentProcessGuid := some "R", traceId := some "R", processId := some 2 }

def c2B : Record :=
  { logType := some "process", processGuid := some "B",
    parentProcessGuid := some "G", traceId := some "R", processId := some 3 }

/-- A record inside the edge-closure below the root whose guid duplicates a
closer descendant's guid. -/
def c2X : Record :=
  { logType := some "process", processGuid := some "G",
    parentProcessGuid := some "B", traceId := some "s", processId := some 4 }

def c2d : List Record := [c2R, c2A, c2B, c2X]

def c3R : Record :=
  { logType := some "process", processGuid := some "R",
    parentProcessGuid := some "P", traceId := some "R", processId := some 1 }

/-- A parent that is its own parent, so the grandparent lookup resolves to
the same record. -/
def c3P : Record :=
  { logType := some "process", processGuid := some "P",
    parentProcessGuid := some "P", traceId := some "T", processId := some 2 }

def c3d : List Record := [c3R, c3P]

def c4A : Record :=
  { logType := some "process", processGuid := some "A",
    parentProcessGuid := some "B", processId := some 1 }

def c4B : Record :=
  { logType := some "process", processGuid := some "B",
    parentProcessGuid := some "A", processId := some 2 }

/-- The spec's two-node parent cycle. -/
def c4d : List Record := [c4A, c4B]

def c4Afix : Record :=
  { logType := some "process", processGuid := some "A",
    parentProcessGuid := some "B", processId := some 1,
    traceId := some "traceId-grandpa-A", isRoot := true, isAlarm := true }

def c4Bfix : Record :=
  { logType := some "process", processGuid := some "B",
    parentProcessGuid := some "A", processId := some 2, traceId := some "A" }

def c5N : Record := { logType := some "network", traceId := some "W" }

def c5F : Record :=
  { logType := some "file", processGuid := some "Z", traceId := some "W" }

def c5R : Record :=
  { logType := some "process", processGuid := some "R", traceId := some "R",
    processId := some 1 }

def c5d : List Record := [c5N, c5F, c5R]

def c5Ffix : Record :=
  { logType := some "file", processGuid := some "Z", traceId := some "R" }

def c6R : Record :=
  { logType := some "process", processGuid := some "R",
    parentProcessGuid := some "P", traceId := some "T0", isRoot := true,
    processId := some 1 }

def c6P : Record :=
  { logType := some "process", processGuid := some "P",
    parentProcessGuid := some "R", traceId := some "T1", processId := some 2 }

/-- A two-node parent cycle through the root. -/
def c6d : List Record := [c6R, c6P]

def c7R : Record :=
  { logType := some "process", processGuid := some "R", traceId := some "R",
    processId := some 1 }

def c7C1 : Record :=
  { logType := some "process", processGuid := some "G",
    parentProcessGuid := some "R", traceId := some "R", processId := some 2,
    processName := some "a" }

def c7C2 : Record :=
  { logType := some "process", processGuid := some "G",
    parentProcessGuid := some "R", traceId := some "R", processId := some 3,
    processName := some "b" }

/-- Two process records sharing the guid `G`. -/
def c7d : List Record := [c7R, c7C1, c7C2]

def c8P : Record :=
  { logType := some "process", processGuid := some "G", traceId := some "X",
    severity := some 5, processId := some 1 }

def c8C : Record :=
  { logType := some "process", processGuid := some "C",
    parentProcessGuid := some "G", traceId := some "Y", processId := some 2 }

/-- No record matches any root criterion, so the severity fallback fires. -/
def c8d : List Record := [c8P, c8C]

def c8Pfix : Record :=
  { logType := some "process", processGuid := some "G", traceId := some "G",
    severity := some 5, processId := some 1, isRoot := true, isAlarm := true }

def c8Cfix : Record :=
  { logType := some "process", processGuid := some "C",
    parentProcessGuid := some "G", traceId := some "G", processId := some 2 }

def c9P : Record :=
  { logType := some "process", processGuid := some "G", traceId := some "G",
    processId := some 5 }

def c9A : Record := { logType := some "alert", traceId := some "G" }

/-- An already-normalized set in non-canonical order. -/
def c9d : List Record := [c9P, c9A]

def w1rec : Record :=
  { logType := some "process", processGuid := some "G", traceId := some "G",
    processId := some 1 }

def w1d : List Record := [w1rec]

def w2R : Record :=
  { logType := some "process", processGuid := some "R", traceId := some "R",
    processId := some 1 }

def w2C : Record :=
  { logType := some "process", processGuid := some "C",
    parentProcessGuid := some "R", traceId := some "C0", processId := some 2 }

def w2d : List Record := [w2R, w2C]

def w3R : Record :=
  { logType := some "process", processGuid := some "R",
    parentProcessGuid := some "P1", traceId := some "R", processId := some 3 }

def w3P1 : Record :=
  { logType := some "process", processGuid := some "P1",
    parentProcessGuid := some "P2", traceId := some "t1", processId := some 2 }

def w3P2 : Record :=
  { logType := some "process", processGuid := some "P2", traceId := some "t2",
    processId := some 1 }

def w3d : List Record := [w3R, w3P1, w3P2]

def w7a : Record := { logType := some "process", processGuid := some "G", processId := some 1 }

def w7b : Record := { logType := some "process", processGuid := some "G", processId := some 2 }

def w9A : Record := { logType := some "alert", traceId := some "R" }

def w9F : Record := { logType := some "file", traceId := some "R" }

def w9G : Record := { logType := some "registry", traceId := some "R" }

def w9P1 : Record :=
  { logType := some "process", processGuid := some "R", traceId := some "R",
    processId := some 2 }

def w9P2 : Record :=
  { logType := some "process", processGuid := some "c",
    parentProcessGuid := some "R", traceId := some "z", processId := some 1 }

def w9d : List Record := [w9A, w9F, w9G, w9P1, w9P2]

def w10r : Record := { logType := some "network", traceId := some "q" }

def w10none : Record := { logType := some "network" }

/-! ### Store infrastructure lemmas -/

lemma mem_enum_snd {d : List Record} {x : Nat × Record} (h : x ∈ d.enum) : x.2 ∈ d :=
  List.getElem?_mem (List.mem_enum_iff_getElem?.mp h)

lemma enum_of_mem {d : List Record} {r : Record} (h : r ∈ d) : ∃ i, (i, r) ∈ d.enum := by
  obtain ⟨i, hi⟩ := List.mem_iff_getElem?.mp h
  exact ⟨i, List.mem_enum_iff_getElem?.mpr hi⟩

lemma keys_nodup_enum (d : List Record) : (d.enum.map Prod.fst).Nodup := by
  rw [List.enum_map_fst]
  exact List.nodup_range _

lemma keys_nodup_filter {st : List (Nat × Record)} (p : Nat × Record → Bool)
    (h : (st.map Prod.fst).Nodup) : ((st.filter p).map Prod.fst).Nodup :=
  h.sublist (List.Sublist.map Prod.fst (List.filter_sublist st))

lemma keys_nodup_procsOf (d : List Record) : ((procsOf d).map Prod.fst).Nodup :=
  keys_nodup_filter _ (keys_nodup_enum d)

lemma keys_nodup_nonProcsOf (d : List Record) : ((nonProcsOf d).map Prod.fst).Nodup :=
  keys_nodup_filter _ (keys_nodup_enum d)

lemma map_fst_updMap (st : List (Nat × Record)) (i : Nat) (f : Record → Record) :
    (st.map (fun x => if x.1 = i then (x.1, f x.2) else x)).map Prod.fst = st.map Prod.fst := by
  induction st with
  | nil => rfl
  | cons a tl ih => by_cases h : a.1 = i <;> simp [h, ih]

lemma keys_unique {st : List (Nat × Record)} (h : (st.map Prod.fst).Nodup)
    {a b : Nat × Record} (ha : a ∈ st) (hb : b ∈ st) (hab : a.1 = b.1) : a = b := by
  induction st with
  | nil => cases ha
  | cons x tl ih =>
    simp only [List.map_cons, List.nodup_cons] at h
    rcases List.mem_cons.mp ha with rfl | ha'
    · rcases List.mem_cons.mp hb with rfl | hb'
      · rfl
      · exfalso
        apply h.1
        rw [hab]
        exact List.mem_map_of_mem Prod.fst hb'
    · rcases List.mem_cons.mp hb with rfl | hb'
      · exfalso
        apply h.1
        rw [← hab]
        exact List.mem_map_of_mem Prod.fst ha'
      · exact ih h.2 ha' hb'

lemma getRec_of_mem {st : List (Nat × Record)} (h : (st.map Prod.fst).Nodup)
    {i : Nat} {r : Record} (hm : (i, r) ∈ st) : getRec st i = some r := by
  unfold getRec
  cases hfind : st.find? (fun x => decide (x.1 = i)) with
  | none =>
    have := List.find?_eq_none.mp hfind (i, r) hm
    simp at this
  | some x =>
    have hpx := List.find?_some hfind
    have hx : x.1 = i := by simpa using hpx
    have hmx := List.mem_of_find?_eq_some hfind
    have hxr : x = (i, r) := keys_unique h hmx hm (by rw [hx])
    simp [hxr]

lemma mem_of_getRec {st : List (Nat × Record)} {i : Nat} {r : Record}
    (h : getRec st i = some r) : (i, r) ∈ st := by
  unfold getRec at h
  cases hfind : st.find? (fun x => decide (x.1 = i)) with
  | none => rw [hfind] at h; cases h
  | some x =>
    rw [hfind] at h
    have hpx := List.find?_some hfind
    have hx : x.1 = i := by simpa using hpx
    have hmx := List.mem_of_find?_eq_some hfind
    simp only [Option.map_some', Option.some_inj] at h
    have : (i, r) = x := by
      cases x
      simp only [Prod.mk.injEq]
      exact ⟨hx.symm, h.symm⟩
    rw [this]
    exact hmx

/-! ### setTraceAt lemmas -/

lemma find?_updMap {st : List (Nat × Record)} {i j : Nat} {t : Option String} :
    (st.map (fun y => if y.1 = i then (y.1, { y.2 with traceId := t }) else y)).find?
        (fun x => decide (x.1 = j)) =
      (st.find? (fun x => decide (x.1 = j))).map
        (fun y => if y.1 = i then (y.1, { y.2 with traceId := t }) else y) := by
  rw [List.find?_map]
  have hcomp : ((fun x : Nat × Record => decide (x.1 = j)) ∘
      (fun y : Nat × Record => if y.1 = i then (y.1, { y.2 with traceId := t }) else y)) =
      (fun x : Nat × Record => decide (x.1 = j)) := by
    funext y
    by_cases h : y.1 = i <;> simp [h]
  rw [hcomp]

lemma setTraceAt_map_fst (st : List (Nat × Record)) (i : Nat) (t : Option String) :
    (setTraceAt st i t).1.map Prod.fst = st.map Prod.fst := by
  unfold setTraceAt
  cases st.find? (fun x => decide (x.1 = i)) with
  | none => rfl
  | some x =>
    by_cases h : x.2.traceId = t
    · simp [h]
    · simp only [h, if_false]
      exact map_fst_updMap st i (fun r => { r with traceId := t })

lemma getRec_setTraceAt_ne {st : List (Nat × Record)} {i j : Nat} {t : Option String}
    (h : j ≠ i) : getRec (setTraceAt st i t).1 j = getRec st j := by
  unfold setTraceAt
  cases hfind : st.find? (fun x => decide (x.1 = i)) with
  | none => rfl
  | some x =>
    by_cases hx : x.2.traceId = t
    · simp [hx]
    · simp only [hx, if_false]
      unfold getRec
      rw [find?_updMap]
      cases hf : st.find? (fun x => decide (x.1 = j)) with
      | none => rfl
      | some y =>
        have hpy := List.find?_some hf
        have hy : y.1 = j := by simpa using hpy
        have : ¬ y.1 = i := by rw [hy]; exact h
        simp [this]

lemma getRec_setTraceAt_self {st : List (Nat × Record)} {i : Nat} {t : Option String} :
    getRec (setTraceAt st i t).1 i = (getRec st i).map (fun r => { r with traceId := t }) := by
  unfold setTraceAt
  cases hfind : st.find? (fun x => decide (x.1 = i)) with
  | none =>
    unfold getRec
    rw [hfind]
    rfl
  | some x =>
    have hpx := List.find?_some hfind
    have hx : x.1 = i := by simpa using hpx
    by_cases hxt : x.2.traceId = t
    · simp only [hxt, if_true]
      unfold getRec
      rw [hfind]
      simp [← hxt]
    · simp only [hxt, if_false]
      unfold getRec
      rw [find?_updMap, hfind]
      simp [hx]

lemma setTraceAt_zero {st : List (Nat × Record)} {i : Nat} {t : Option String}
    (h : (setTraceAt st i t).2 = 0) : (setTraceAt st i t).1 = st := by
  unfold setTraceAt at *
  cases hfind : st.find? (fun x => decide (x.1 = i)) with
  | none => rfl
  | some x =>
    rw [hfind] at h
    by_cases hxt : x.2.traceId = t
    · simp [hxt]
    · simp [hxt] at h

lemma mem_setTraceAt {st : List (Nat × Record)} {i : Nat} {t : Option String}
    {x : Nat × Record} (h : x ∈ (setTraceAt st i t).1) :
    ∃ y ∈ st, x.1 = y.1 ∧ (x.2 = y.2 ∨ x.2 = { y.2 with traceId := t }) := by
  unfold setTraceAt at h
  cases hfind : st.find? (fun z => decide (z.1 = i)) with
  | none =>
    rw [hfind] at h
    exact ⟨x, h, rfl, Or.inl rfl⟩
  | some z =>
    rw [hfind] at h
    dsimp only [] at h
    by_cases hzt : z.2.traceId = t
    · rw [if_pos hzt] at h
      exact ⟨x, h, rfl, Or.inl rfl⟩
    · rw [if_neg hzt] at h
      obtain ⟨y, hy, hxy⟩ := List.mem_map.mp h
      by_cases hyi : y.1 = i
      · refine ⟨y, hy, ?_, ?_⟩
        · rw [← hxy]; simp [hyi]
        · right; rw [← hxy]; simp [hyi]
      · refine ⟨y, hy, ?_, Or.inl ?_⟩
        · rw [← hxy]; simp [hyi]
        · rw [← hxy]; simp [hyi]

lemma mem_setTraceAt_rev {st : List (Nat × Record)} {i : Nat} {t : Option String}
    {y : Nat × Record} (h : y ∈ st) :
    ∃ x ∈ (setTraceAt st i t).1, x.1 = y.1 ∧ (x.2 = y.2 ∨ x.2 = { y.2 with traceId := t }) := by
  unfold setTraceAt
  cases hfind : st.find? (fun z => decide (z.1 = i)) with
  | none => exact ⟨y, h, rfl, Or.inl rfl⟩
  | some z =>
    dsimp only []
    by_cases hzt : z.2.traceId = t
    · rw [if_pos hzt]
      exact ⟨y, h, rfl, Or.inl rfl⟩
    · rw [if_neg hzt]
      by_cases hyi : y.1 = i
      · refine ⟨(y.1, { y.2 with traceId := t }), ?_, rfl, Or.inr rfl⟩
        have := List.mem_map_of_mem
          (fun z => if z.1 = i then (z.1, { z.2 with traceId := t }) else z) h
        simpa [hyi] using this
      · refine ⟨y, ?_, rfl, Or.inl rfl⟩
        have := List.mem_map_of_mem
          (fun z => if z.1 = i then (z.1, { z.2 with traceId := t }) else z) h
        simpa [hyi] using this

/-! ### applyUpdates lemmas -/

lemma applyUpdates_cons (st : List (Nat × Record)) (u : Nat × Option String)
    (us : List (Nat × Option String)) :
    (applyUpdates st (u :: us)).1 = (applyUpdates (setTraceAt st u.1 u.2).1 us).1 ∧
    (applyUpdates st (u :: us)).2 =
      (setTraceAt st u.1 u.2).2 + (applyUpdates (setTraceAt st u.1 u.2).1 us).2 := by
  unfold applyUpdates
  simp only [List.foldl_cons]
  constructor
  · have : ∀ (l : List (Nat × Option String)) (s : List (Nat × Record)) (c c' : Nat),
        (l.foldl (fun acc u => ((setTraceAt acc.1 u.1 u.2).1, acc.2 + (setTraceAt acc.1 u.1 u.2).2)) (s, c)).1 =
        (l.foldl (fun acc u => ((setTraceAt acc.1 u.1 u.2).1, acc.2 + (setTraceAt acc.1 u.1 u.2).2)) (s, c')).1 := by
      intro l
      induction l with
      | nil => intro s c c'; rfl
      | cons v vs ih => intro s c c'; simp only [List.foldl_cons]; exact ih _ _ _
    exact this us _ _ 0
  · have : ∀ (l : List (Nat × Option String)) (s : List (Nat × Record)) (c : Nat),
        (l.foldl (fun acc u => ((setTraceAt acc.1 u.1 u.2).1, acc.2 + (setTraceAt acc.1 u.1 u.2).2)) (s, c)).2 =
        c + (l.foldl (fun acc u => ((setTraceAt acc.1 u.1 u.2).1, acc.2 + (setTraceAt acc.1 u.1 u.2).2)) (s, 0)).2 := by
      intro l
      induction l with
      | nil => intro s c; simp
      | cons v vs ih =>
        intro s c
        simp only [List.foldl_cons]
        rw [ih _ (c + (setTraceAt s v.1 v.2).2), ih _ (0 + (setTraceAt s v.1 v.2).2)]
        omega
    simp only [List.foldl_cons] at *
    rw [this us _ (0 + (setTraceAt st u.1 u.2).2)]
    omega

lemma applyUpdates_nil (st : List (Nat × Record)) : applyUpdates st [] = (st, 0) := rfl

lemma getRec_applyUpdates_ne {us : List (Nat × Option String)} {st : List (Nat × Record)}
    {i : Nat} (h : ∀ u ∈ us, u.1 ≠ i) :
    getRec (applyUpdates st us).1 i = getRec st i := by
  induction us generalizing st with
  | nil => rfl
  | cons u tl ih =>
    rw [(applyUpdates_cons st u tl).1]
    rw [ih (fun v hv => h v (List.mem_cons_of_mem u hv))]
    exact getRec_setTraceAt_ne (fun hc => h u (List.mem_cons_self u tl) hc.symm)

lemma getRec_applyUpdates_const {U : List (Nat × Option String)} {st : List (Nat × Record)}
    {i : Nat} {t : Option String} {r : Record}
    (hall : ∀ u ∈ U, u.1 = i → u.2 = t) (hr : getRec st i = some r)
    (hstart : r.traceId = t ∨ ∃ u ∈ U, u.1 = i) :
    ∃ s, getRec (applyUpdates st U).1 i = some s ∧ s.traceId = t := by
  induction U generalizing st r with
  | nil =>
    rcases hstart with h | ⟨u, hu, _⟩
    · exact ⟨r, hr, h⟩
    · cases hu
  | cons u tl ih =>
    rw [(applyUpdates_cons st u tl).1]
    by_cases hui : u.1 = i
    · have hut : u.2 = t := hall u (List.mem_cons_self u tl) hui
      have hnew : getRec (setTraceAt st u.1 u.2).1 i = some { r with traceId := t } := by
        rw [hui, hut, getRec_setTraceAt_self, hr]
        rfl
      exact ih (fun v hv => hall v (List.mem_cons_of_mem u hv)) hnew (Or.inl rfl)
    · have hkeep : getRec (setTraceAt st u.1 u.2).1 i = some r := by
        rw [getRec_setTraceAt_ne (fun hc => hui hc.symm)]
        exact hr
      refine ih (fun v hv => hall v (List.mem_cons_of_mem u hv)) hkeep ?_
      rcases hstart with h | ⟨v, hv, hvi⟩
      · exact Or.inl h
      · rcases List.mem_cons.mp hv with rfl | hv'
        · exact absurd hvi hui
        · exact Or.inr ⟨v, hv', hvi⟩

lemma mem_applyUpdates {U : List (Nat × Option String)} {st : List (Nat × Record)}
    {x : Nat × Record} (h : x ∈ (applyUpdates st U).1) :
    ∃ y ∈ st, x.1 = y.1 ∧ x.2.processGuid = y.2.processGuid ∧
      x.2.logType = y.2.logType ∧ x.2.processId = y.2.processId := by
  induction U generalizing st with
  | nil => exact ⟨x, h, rfl, rfl, rfl, rfl⟩
  | cons u tl ih =>
    rw [(applyUpdates_cons st u tl).1] at h
    obtain ⟨y, hy, h1, h2, h3, h4⟩ := ih h
    obtain ⟨z, hz, hz1, hz2⟩ := mem_setTraceAt hy
    refine ⟨z, hz, h1.trans hz1, ?_, ?_, ?_⟩ <;>
      rcases hz2 with hez | hez <;> simp [h2, h3, h4, hez]

lemma mem_applyUpdates_rev {us : List (Nat × Option String)} {st : List (Nat × Record)}
    {y : Nat × Record} (h : y ∈ st) :
    ∃ x ∈ (applyUpdates st us).1, x.1 = y.1 ∧ x.2.processGuid = y.2.processGuid ∧
      x.2.logType = y.2.logType ∧ x.2.processId = y.2.processId := by
  induction us generalizing st y with
  | nil => exact ⟨y, h, rfl, rfl, rfl, rfl⟩
  | cons u tl ih =>
    obtain ⟨z, hz, hz1, hz2⟩ := mem_setTraceAt_rev (i := u.1) (t := u.2) h
    obtain ⟨x, hx, h1, h2, h3, h4⟩ := ih hz
    rw [(applyUpdates_cons st u tl).1]
    refine ⟨x, hx, h1.trans hz1, ?_, ?_, ?_⟩ <;>
      rcases hz2 with hez | hez <;> simp [h2, h3, h4, hez]

lemma applyUpdates_map_fst (st : List (Nat × Record)) (us : List (Nat × Option String)) :
    (applyUpdates st us).1.map Prod.fst = st.map Prod.fst := by
  induction us generalizing st with
  | nil => rfl
  | cons u tl ih =>
    rw [(applyUpdates_cons st u tl).1, ih, setTraceAt_map_fst]

lemma applyUpdates_zero {us : List (Nat × Option String)} {st : List (Nat × Record)}
    (h : (applyUpdates st us).2 = 0) : (applyUpdates st us).1 = st := by
  induction us generalizing st with
  | nil => rfl
  | cons u tl ih =>
    have hc := applyUpdates_cons st u tl
    rw [hc.2] at h
    have h1 : (setTraceAt st u.1 u.2).2 = 0 := by omega
    have h2 : (applyUpdates (setTraceAt st u.1 u.2).1 tl).2 = 0 := by omega
    rw [hc.1, ih h2, setTraceAt_zero h1]

lemma applyUpdates_append (st : List (Nat × Record)) (us vs : List (Nat × Option String)) :
    (applyUpdates st (us ++ vs)).1 = (applyUpdates (applyUpdates st us).1 vs).1 := by
  induction us generalizing st with
  | nil => rfl
  | cons u tl ih =>
    rw [List.cons_append, (applyUpdates_cons st u (tl ++ vs)).1, ih,
      (applyUpdates_cons st u tl).1]

/-! ### maxSev and rootSel lemmas -/

lemma maxSev_mem {l : List (Nat × Record)} {m : Nat × Record} (h : maxSev l = some m) :
    m ∈ l := by
  unfold maxSev at h
  suffices H : ∀ (l : List (Nat × Record)) (b : Option (Nat × Record)) (m : Nat × Record),
      l.foldl (fun b x => match b with
        | none => some x
        | some m => if sevKey m < sevKey x then some x else some m) b = some m →
      m ∈ l ∨ b = some m by
    rcases H l none m h with hm | hb
    · exact hm
    · cases hb
  intro l
  induction l with
  | nil => intro b m h; exact Or.inr h
  | cons x tl ih =>
    intro b m h
    simp only [List.foldl_cons] at h
    rcases b with _ | v
    · rcases ih (some x) m h with hm | hb
      · exact Or.inl (List.mem_cons_of_mem x hm)
      · simp only [Option.some_inj] at hb
        exact Or.inl (hb ▸ List.mem_cons_self x tl)
    · dsimp only [] at h
      by_cases hlt : sevKey v < sevKey x
      · rw [if_pos hlt] at h
        rcases ih (some x) m h with hm | hb
        · exact Or.inl (List.mem_cons_of_mem x hm)
        · simp only [Option.some_inj] at hb
          exact Or.inl (hb ▸ List.mem_cons_self x tl)
      · rw [if_neg hlt] at h
        rcases ih (some v) m h with hm | hb
        · exact Or.inl (List.mem_cons_of_mem x hm)
        · simp only [Option.some_inj] at hb
          exact Or.inr (congrArg some hb)

lemma maxSev_le {l : List (Nat × Record)} {m : Nat × Record} (h : maxSev l = some m) :
    ∀ x ∈ l, sevKey x ≤ sevKey m := by
  unfold maxSev at h
  suffices H : ∀ (l : List (Nat × Record)) (b : Option (Nat × Record)) (m : Nat × Record),
      l.foldl (fun b x => match b with
        | none => some x
        | some m => if sevKey m < sevKey x then some x else some m) b = some m →
      (∀ v, b = some v → sevKey v ≤ sevKey m) ∧ ∀ x ∈ l, sevKey x ≤ sevKey m by
    exact (H l none m h).2
  intro l
  induction l with
  | nil =>
    intro b m h
    refine ⟨fun v hv => ?_, fun x hx => absurd hx (List.not_mem_nil x)⟩
    rw [hv] at h
    simp only [List.foldl_nil, Option.some_inj] at h
    rw [h]
  | cons x tl ih =>
    intro b m h
    simp only [List.foldl_cons] at h
    rcases b with _ | v
    · have := ih (some x) m h
      refine ⟨(fun v hv => by cases hv), fun y hy => ?_⟩
      rcases List.mem_cons.mp hy with rfl | hy'
      · exact this.1 y rfl
      · exact this.2 y hy'
    · dsimp only [] at h
      by_cases hlt : sevKey v < sevKey x
      · rw [if_pos hlt] at h
        have := ih (some x) m h
        refine ⟨fun w hw => ?_, fun y hy => ?_⟩
        · simp only [Option.some_inj] at hw
          exact hw ▸ le_of_lt (lt_of_lt_of_le hlt (this.1 x rfl))
        · rcases List.mem_cons.mp hy with rfl | hy'
          · exact this.1 y rfl
          · exact this.2 y hy'
      · rw [if_neg hlt] at h
        have := ih (some v) m h
        refine ⟨fun w hw => ?_, fun y hy => ?_⟩
        · simp only [Option.some_inj] at hw
          exact hw ▸ this.1 v rfl
        · rcases List.mem_cons.mp hy with rfl | hy'
          · exact le_trans (le_of_not_lt hlt) (this.1 v rfl)
          · exact this.2 y hy'

lemma maxSev_of_ne_nil {l : List (Nat × Record)} (h : l ≠ []) :
    ∃ m, maxSev l = some m := by
  unfold maxSev
  suffices H : ∀ (l : List (Nat × Record)) (v : Nat × Record),
      ∃ m, l.foldl (fun b x => match b with
        | none => some x
        | some m => if sevKey m < sevKey x then some x else some m) (some v) = some m by
    cases l with
    | nil => exact absurd rfl h
    | cons x tl =>
      simp only [List.foldl_cons]
      exact H tl x
  intro l
  induction l with
  | nil => intro v; exact ⟨v, rfl⟩
  | cons x tl ih =>
    intro v
    simp only [List.foldl_cons]
    by_cases hlt : sevKey v < sevKey x
    · rw [if_pos hlt]; exact ih x
    · rw [if_neg hlt]; exact ih v

/-! ### BFS lemmas: termination with sufficient fuel, and invariants -/

lemma count_unvisited_cons {cand visited : List (Option String)} {x : Option String}
    (hnd : cand.Nodup) (hx : x ∈ cand) (hnv : x ∉ visited) :
    (cand.filter (fun c => decide (c ∉ (x :: visited)))).length + 1 =
    (cand.filter (fun c => decide (c ∉ visited))).length := by
  induction cand with
  | nil => cases hx
  | cons a tl ih =>
    rw [List.nodup_cons] at hnd
    rcases List.mem_cons.mp hx with rfl | hx'
    · have h3 : tl.filter (fun c => decide (c ∉ (x :: visited))) =
          tl.filter (fun c => decide (c ∉ visited)) := by
        apply List.filter_congr
        intro c hc
        have hca : ¬ c = x := fun hca => hnd.1 (hca ▸ hc)
        apply decide_eq_decide.mpr
        simp [List.mem_cons, hca]
      rw [List.filter_cons, List.filter_cons, h3]
      simp [hnv]
    · have hrec := ih hnd.2 hx'
      have hne : ¬ a = x := fun hax => hnd.1 (hax ▸ hx')
      rw [List.filter_cons, List.filter_cons]
      by_cases hmem : a ∈ visited
      · simp only [List.mem_cons] at *
        simp [hmem, hne] at hrec ⊢
        omega
      · simp only [List.mem_cons] at *
        simp [hmem, hne] at hrec ⊢
        omega

lemma bfs_completes (procs : List (Nat × Record)) (cand : List (Option String))
    (hnd : cand.Nodup) (hp : ∀ x ∈ procs, x.2.processGuid ∈ cand) :
    ∀ (fuel : Nat) (queue visited : List (Option String)) (acc : List (Nat × Record)),
      (∀ g ∈ queue, g ∈ cand) →
      queue.length + (procs.length + 1) *
        (cand.filter (fun c => decide (c ∉ visited))).length ≤ fuel →
      ∃ out, bfs procs fuel queue visited acc = some out := by
  intro fuel
  induction fuel with
  | zero =>
    intro queue visited acc _ hle
    have hq0 : queue.length = 0 := by omega
    rw [List.length_eq_zero] at hq0
    subst hq0
    exact ⟨_, rfl⟩
  | succ fuel ih =>
    intro queue visited acc hq hle
    cases queue with
    | nil => exact ⟨_, rfl⟩
    | cons current rest =>
      simp only [bfs]
      by_cases hv : current ∈ visited
      · rw [if_pos hv]
        apply ih rest visited acc (fun g hg => hq g (List.mem_cons_of_mem _ hg))
        simp only [List.length_cons] at hle
        omega
      · rw [if_neg hv]
        apply ih
        · intro g hg
          rcases List.mem_append.mp hg with h1 | h2
          · exact hq g (List.mem_cons_of_mem _ h1)
          · obtain ⟨y, hy, hyg⟩ := List.mem_map.mp h2
            exact hyg ▸ hp y (List.mem_of_mem_filter hy)
        · have hcur : current ∈ cand := hq current (List.mem_cons_self _ _)
          have hcount := count_unvisited_cons hnd hcur hv
          have hnews : (childMatches procs current (current :: visited)).length ≤
              procs.length := List.length_filter_le _ _
          have hmul : (procs.length + 1) *
              ((cand.filter (fun c => decide (c ∉ visited))).length) =
              (procs.length + 1) *
                ((cand.filter (fun c => decide (c ∉ (current :: visited)))).length) +
              (procs.length + 1) := by
            rw [← hcount]
            ring
          rw [hmul] at hle
          simp only [List.length_cons, List.length_append, List.length_map] at hle ⊢
          have : (childMatches procs current (current :: visited)).length ≤ procs.length :=
            hnews
          linarith

lemma bfs_total (procs : List (Nat × Record)) (g : Option String) :
    ∃ out, bfsRun procs g = some out := by
  unfold bfsRun
  have hcand : ((g :: procs.map (fun x => x.2.processGuid)).dedup).length ≤
      procs.length + 1 := by
    have := (List.dedup_sublist (g :: procs.map (fun x => x.2.processGuid))).length_le
    simpa using this
  apply bfs_completes procs ((g :: procs.map (fun x => x.2.processGuid)).dedup)
    (List.nodup_dedup _)
    (fun x hx => List.mem_dedup.mpr
      (List.mem_cons_of_mem _ (List.mem_map_of_mem _ hx)))
    (bfsFuel procs) [g] [] []
    (fun x hx => by
      rcases List.mem_cons.mp hx with rfl | hx'
      · exact List.mem_dedup.mpr (List.mem_cons_self _ _)
      · cases hx')
  have hfilter : (((g :: procs.map (fun x => x.2.processGuid)).dedup).filter
      (fun c => decide (c ∉ ([] : List (Option String))))).length ≤ procs.length + 1 :=
    le_trans (List.length_filter_le _ _) hcand
  have := Nat.mul_le_mul_left (procs.length + 1) hfilter
  unfold bfsFuel
  simp only [List.length_cons, List.length_nil]
  linarith

lemma bfs_nodup {procs : List (Nat × Record)} :
    ∀ (fuel : Nat) (q v : List (Option String)) (acc ds : List (Nat × Record))
      (vis : List (Option String)), v.Nodup →
      bfs procs fuel q v acc = some (ds, vis) → vis.Nodup := by
  intro fuel
  induction fuel with
  | zero =>
    intro q v acc ds vis hv h
    cases q with
    | nil =>
      simp only [bfs, Option.some_inj, Prod.mk.injEq] at h
      exact h.2 ▸ hv
    | cons a q => simp [bfs] at h
  | succ fuel ih =>
    intro q v acc ds vis hv h
    cases q with
    | nil =>
      simp only [bfs, Option.some_inj, Prod.mk.injEq] at h
      exact h.2 ▸ hv
    | cons current rest =>
      simp only [bfs] at h
      by_cases hc : current ∈ v
      · rw [if_pos hc] at h
        exact ih rest v acc ds vis hv h
      · rw [if_neg hc] at h
        exact ih _ _ _ ds vis (List.nodup_cons.mpr ⟨hc, hv⟩) h

lemma bfs_acc_mem {procs : List (Nat × Record)} :
    ∀ (fuel : Nat) (q v : List (Option String)) (acc ds : List (Nat × Record))
      (vis : List (Option String)),
      bfs procs fuel q v acc = some (ds, vis) →
      ∀ x ∈ ds, x ∈ acc ∨ x ∈ procs := by
  intro fuel
  induction fuel with
  | zero =>
    intro q v acc ds vis h x hx
    cases q with
    | nil =>
      simp only [bfs, Option.some_inj, Prod.mk.injEq] at h
      exact Or.inl (h.1 ▸ hx)
    | cons a q => simp [bfs] at h
  | succ fuel ih =>
    intro q v acc ds vis h x hx
    cases q with
    | nil =>
      simp only [bfs, Option.some_inj, Prod.mk.injEq] at h
      exact Or.inl (h.1 ▸ hx)
    | cons current rest =>
      simp only [bfs] at h
      by_cases hc : current ∈ v
      · rw [if_pos hc] at h
        exact ih rest v acc ds vis h x hx
      · rw [if_neg hc] at h
        rcases ih _ _ _ ds vis h x hx with hacc | hp
        · rcases List.mem_append.mp hacc with h1 | h2
          · exact Or.inl h1
          · exact Or.inr (List.mem_of_mem_filter h2)
        · exact Or.inr hp

lemma bfs_guid_avoid {procs : List (Nat × Record)} {g0 : Option String} :
    ∀ (fuel : Nat) (q v : List (Option String)) (acc ds : List (Nat × Record))
      (vis : List (Option String)), g0 ∈ v →
      bfs procs fuel q v acc = some (ds, vis) →
      ∀ x ∈ ds, x ∈ acc ∨ ¬ x.2.processGuid = g0 := by
  intro fuel
  induction fuel with
  | zero =>
    intro q v acc ds vis hg h x hx
    cases q with
    | nil =>
      simp only [bfs, Option.some_inj, Prod.mk.injEq] at h
      exact Or.inl (h.1 ▸ hx)
    | cons a q => simp [bfs] at h
  | succ fuel ih =>
    intro q v acc ds vis hg h x hx
    cases q with
    | nil =>
      simp only [bfs, Option.some_inj, Prod.mk.injEq] at h
      exact Or.inl (h.1 ▸ hx)
    | cons current rest =>
      simp only [bfs] at h
      by_cases hc : current ∈ v
      · rw [if_pos hc] at h
        exact ih rest v acc ds vis hg h x hx
      · rw [if_neg hc] at h
        rcases ih _ _ _ ds vis (List.mem_cons_of_mem current hg) h x hx with hacc | hne
        · rcases List.mem_append.mp hacc with h1 | h2
          · exact Or.inl h1
          · right
            have := List.of_mem_filter h2
            have hnm : x.2.processGuid ∉ (current :: v) := (of_decide_eq_true this).2
            intro hxg
            exact hnm (hxg ▸ List.mem_cons_of_mem current hg)
        · exact Or.inr hne

lemma bfs_head_avoid {procs : List (Nat × Record)} {g0 : Option String}
    {fuel : Nat} {rest v : List (Option String)} {acc ds : List (Nat × Record)}
    {vis : List (Option String)}
    (h : bfs procs fuel (g0 :: rest) v acc = some (ds, vis)) :
    ∀ x ∈ ds, x ∈ acc ∨ ¬ x.2.processGuid = g0 := by
  intro x hx
  cases fuel with
  | zero => simp [bfs] at h
  | succ fuel =>
    simp only [bfs] at h
    by_cases hc : g0 ∈ v
    · rw [if_pos hc] at h
      exact bfs_guid_avoid fuel rest v acc ds vis hc h x hx
    · rw [if_neg hc] at h
      rcases bfs_guid_avoid fuel _ _ _ ds vis (List.mem_cons_self g0 v) h x hx with
        hacc | hne
      · rcases List.mem_append.mp hacc with h1 | h2
        · exact Or.inl h1
        · right
          have := List.of_mem_filter h2
          have hnm : x.2.processGuid ∉ (g0 :: v) := (of_decide_eq_true this).2
          intro hxg
          exact hnm (hxg ▸ List.mem_cons_self g0 v)
      · exact Or.inr hne

lemma descendants_run (d : List Record) (e : Nat × Record) :
    ∃ vis, bfsRun (procs1 d) e.2.processGuid = some (descendants d e, vis) := by
  obtain ⟨out, hout⟩ := bfs_total (procs1 d) e.2.processGuid
  refine ⟨out.2, ?_⟩
  unfold descendants
  rw [hout]
  rfl

lemma descendants_sub (d : List Record) (e : Nat × Record) :
    ∀ x ∈ descendants d e, x ∈ procs1 d := by
  intro x hx
  obtain ⟨vis, hrun⟩ := descendants_run d e
  rcases bfs_acc_mem (bfsFuel (procs1 d)) _ _ _ _ _ hrun x hx with h | h
  · cases h
  · exact h

lemma descendants_guid_ne (d : List Record) (e : Nat × Record) :
    ∀ x ∈ descendants d e, ¬ x.2.processGuid = e.2.processGuid := by
  intro x hx
  obtain ⟨vis, hrun⟩ := descendants_run d e
  rcases bfs_head_avoid hrun x hx with h | h
  · cases h
  · exact h

/-! ### Pipeline-level lemmas -/

lemma keys_nodup_procs1 (d : List Record) : ((procs1 d).map Prod.fst).Nodup := by
  unfold procs1
  cases findRootPre d with
  | some e => exact keys_nodup_procsOf d
  | none =>
    cases maxSev (procsOf d) with
    | none => exact keys_nodup_procsOf d
    | some m =>
      rw [map_fst_updMap (procsOf d) m.1 (fun _ => (synthRoot m).2)]
      exact keys_nodup_procsOf d

lemma keys_nodup_procs4 (d : List Record) (e : Nat × Record) :
    ((procs4 d e).1.map Prod.fst).Nodup := by
  unfold procs4
  rw [applyUpdates_map_fst]
  exact keys_nodup_procs1 d

lemma procsOf_logType {d : List Record} {x : Nat × Record} (h : x ∈ procsOf d) :
    x.2.logType = some "process" := by
  have h' : x ∈ d.enum.filter (fun x => decide (x.2.logType = some "process")) := h
  have hd := List.of_mem_filter h'
  exact of_decide_eq_true hd

lemma procsOf_mem_orig {d : List Record} {x : Nat × Record} (h : x ∈ procsOf d) :
    x.2 ∈ d :=
  mem_enum_snd (List.mem_of_mem_filter h)

lemma nonProcsOf_logType {d : List Record} {x : Nat × Record} (h : x ∈ nonProcsOf d) :
    ¬ x.2.logType = some "process" := by
  have h' : x ∈ d.enum.filter (fun x => decide (¬ x.2.logType = some "process")) := h
  have hd := List.of_mem_filter h'
  exact of_decide_eq_true hd

lemma nonProcsOf_mem_orig {d : List Record} {x : Nat × Record} (h : x ∈ nonProcsOf d) :
    x.2 ∈ d :=
  mem_enum_snd (List.mem_of_mem_filter h)

lemma mem_to_procsOf {d : List Record} {r : Record} (h : r ∈ d)
    (hl : r.logType = some "process") : ∃ i, (i, r) ∈ procsOf d := by
  obtain ⟨i, hi⟩ := enum_of_mem h
  exact ⟨i, List.mem_filter.mpr ⟨hi, decide_eq_true hl⟩⟩

lemma mem_to_nonProcsOf {d : List Record} {r : Record} (h : r ∈ d)
    (hl : ¬ r.logType = some "process") : ∃ i, (i, r) ∈ nonProcsOf d := by
  obtain ⟨i, hi⟩ := enum_of_mem h
  exact ⟨i, List.mem_filter.mpr ⟨hi, decide_eq_true hl⟩⟩

lemma procs1_logType {d : List Record} {x : Nat × Record} (h : x ∈ procs1 d) :
    x.2.logType = some "process" := by
  unfold procs1 at h
  cases hf : findRootPre d with
  | some e =>
    rw [hf] at h
    exact procsOf_logType h
  | none =>
    rw [hf] at h
    cases hm : maxSev (procsOf d) with
    | none =>
      rw [hm] at h
      exact procsOf_logType h
    | some m =>
      rw [hm] at h
      obtain ⟨y, hy, hxy⟩ := List.mem_map.mp h
      by_cases hyi : y.1 = m.1
      · have hml : m.2.logType = some "process" := procsOf_logType (maxSev_mem hm)
        rw [← hxy]
        simpa [hyi, synthRoot] using hml
      · rw [← hxy]
        simpa [hyi] using procsOf_logType hy

lemma rootSel_mem {d : List Record} {e : Nat × Record} (h : rootSel d = some e) :
    e ∈ procs1 d := by
  unfold rootSel at h
  unfold procs1
  cases hf : findRootPre d with
  | some x =>
    rw [hf] at h
    simp only [Option.some_inj] at h
    subst h
    exact List.mem_of_find?_eq_some hf
  | none =>
    rw [hf] at h
    cases hm : maxSev (procsOf d) with
    | none => rw [hm] at h; cases h
    | some m =>
      rw [hm] at h
      simp only [Option.map_some', Option.some_inj] at h
      subst h
      have hmm := maxSev_mem hm
      have := List.mem_map_of_mem
        (fun x => if x.1 = m.1 then (x.1, (synthRoot m).2) else x) hmm
      simpa [synthRoot] using this

lemma rootSel_getRec {d : List Record} {e : Nat × Record} (h : rootSel d = some e) :
    getRec (procs1 d) e.1 = some e.2 :=
  getRec_of_mem (keys_nodup_procs1 d) (rootSel_mem h)

lemma procs1_mem_orig {d : List Record} {x : Nat × Record} (h : x ∈ procs1 d) :
    x ∈ procsOf d ∨
      (findRootPre d = none ∧ ∃ m, maxSev (procsOf d) = some m ∧ x = synthRoot m) := by
  unfold procs1 at h
  cases hf : findRootPre d with
  | some e =>
    rw [hf] at h
    exact Or.inl h
  | none =>
    rw [hf] at h
    cases hm : maxSev (procsOf d) with
    | none =>
      rw [hm] at h
      exact Or.inl h
    | some m =>
      rw [hm] at h
      obtain ⟨y, hy, hxy⟩ := List.mem_map.mp h
      by_cases hyi : y.1 = m.1
      · right
        refine ⟨rfl, m, rfl, ?_⟩
        have hym : y = m := keys_unique (keys_nodup_procsOf d) hy (maxSev_mem hm) hyi
        rw [← hxy, hyi]
        simp [synthRoot]
      · left
        rw [← hxy]
        simpa [hyi] using hy

lemma filter_all_of_length {α : Type} {p : α → Bool} {l : List α}
    (h : (l.filter p).length = l.length) : ∀ a ∈ l, p a = true := by
  induction l with
  | nil => intro a ha; cases ha
  | cons x tl ih =>
    intro a ha
    cases hx : p x
    · rw [List.filter_cons, hx] at h
      simp at h
      have := List.length_filter_le p tl
      omega
    · rw [List.filter_cons, hx] at h
      simp at h
      rcases List.mem_cons.mp ha with rfl | ha'
      · exact hx
      · exact h a ha'

lemma needsWrite_false {d : List Record} {e : Nat × Record}
    (h : needsWrite d e = false) :
    (procs4 d e).2 = 0 ∧ nonModCount d e = 0 ∧ removedCount d e = 0 := by
  unfold needsWrite at h
  rw [decide_eq_false_iff_not] at h
  push_neg at h
  omega

lemma kept_all_of_removed0 {d : List Record} {e : Nat × Record}
    (h : removedCount d e = 0) :
    ∀ x ∈ (procs4 d e).1, x.2.processGuid ∈ validGuids d e := by
  unfold removedCount at h
  have hle : (keptProcs d e).length ≤ (procs4 d e).1.length := by
    unfold keptProcs
    exact List.length_filter_le _ _
  have heq : (keptProcs d e).length = (procs4 d e).1.length := by omega
  intro x hx
  exact of_decide_eq_true (filter_all_of_length heq x hx)

lemma fixCase_eq_serialized {d : List Record} {e : Nat × Record}
    (h : rootSel d = some e) (hw : needsWrite d e = true) :
    fixCase d = serialized d e := by
  unfold fixCase
  rw [h]
  simp [hw]

lemma fixCase_eq_self {d : List Record} {e : Nat × Record}
    (h : rootSel d = some e) (hw : needsWrite d e = false) :
    fixCase d = d := by
  unfold fixCase
  rw [h]
  simp [hw]

lemma serialized_mem_of_kept {d : List Record} {e : Nat × Record}
    {x : Nat × Record} (hx : x ∈ keptProcs d e) : x.2 ∈ serialized d e := by
  unfold serialized
  apply List.mem_map_of_mem
  apply List.mem_append.mpr
  right
  exact ((List.perm_insertionSort pidLe (keptProcs d e)).mem_iff).mpr hx

lemma serialized_cases {d : List Record} {e : Nat × Record} {r : Record}
    (h : r ∈ serialized d e) :
    (∃ x ∈ nonFixedOf d e, r = x.2 ∧
      (x.2.logType = some "alert" ∨ x.2.logType = some "file" ∨
        x.2.logType = some "registry")) ∨
    ∃ x ∈ keptProcs d e, r = x.2 := by
  unfold serialized at h
  obtain ⟨x, hx, hxr⟩ := List.mem_map.mp h
  rcases List.mem_append.mp hx with hx1 | hx4
  · rcases List.mem_append.mp hx1 with hx2 | hx3
    · rcases List.mem_append.mp hx2 with ha | hb
      · have hda := List.of_mem_filter ha
        exact Or.inl ⟨x, List.mem_of_mem_filter ha, hxr.symm,
          Or.inl (of_decide_eq_true hda)⟩
      · have hdb := List.of_mem_filter hb
        exact Or.inl ⟨x, List.mem_of_mem_filter hb, hxr.symm,
          Or.inr (Or.inl (of_decide_eq_true hdb))⟩
    · have hdc := List.of_mem_filter hx3
      exact Or.inl ⟨x, List.mem_of_mem_filter hx3, hxr.symm,
        Or.inr (Or.inr (of_decide_eq_true hdc))⟩
  · right
    refine ⟨x, ?_, hxr.symm⟩
    exact ((List.perm_insertionSort pidLe (keptProcs d e)).mem_iff).mp hx4

lemma fixNonProc_logType (t : Option String) (r : Record) :
    (fixNonProc t r).logType = r.logType := by
  unfold fixNonProc
  by_cases h : nonProcCond t r = true
  · simp [h]
  · simp [h]

lemma fixNonProc_traceFacts (t : Option String) (r : Record) :
    (fixNonProc t r).traceId = t ∨ isTruthyStr (fixNonProc t r).traceId = false := by
  unfold fixNonProc
  by_cases h : nonProcCond t r = true
  · simp [h]
  · rw [if_neg (by simpa using h)]
    unfold nonProcCond at h
    rw [Bool.and_eq_true, decide_eq_true_eq] at h
    push_neg at h
    by_cases ht : isTruthyStr r.traceId = true
    · exact Or.inl (h ht)
    · exact Or.inr (by simpa using ht)

lemma nonFixedOf_logType {d : List Record} {e : Nat × Record} {x : Nat × Record}
    (h : x ∈ nonFixedOf d e) : ¬ x.2.logType = some "process" := by
  unfold nonFixedOf at h
  obtain ⟨y, hy, hxy⟩ := List.mem_map.mp h
  rw [← hxy]
  simp only [fixNonProc_logType]
  exact nonProcsOf_logType hy

lemma keptProcs_logType {d : List Record} {e : Nat × Record} {x : Nat × Record}
    (h : x ∈ keptProcs d e) : x.2.logType = some "process" := by
  unfold keptProcs at h
  have hx4 : x ∈ (procs4 d e).1 := List.mem_of_mem_filter h
  obtain ⟨y, hy, _, _, hlog, _⟩ := mem_applyUpdates hx4
  rw [hlog]
  exact procs1_logType hy

/-! ### Claim-assembly lemmas -/

lemma rootSel_of_found {d : List Record} {e : Nat × Record}
    (h : findRootPre d = some e) : rootSel d = some e := by
  unfold rootSel
  rw [h]

lemma procs1_of_found {d : List Record} {e : Nat × Record}
    (h : findRootPre d = some e) : procs1 d = procsOf d := by
  unfold procs1
  rw [h]

lemma rootSel_synth {d : List Record} {m : Nat × Record}
    (hf : findRootPre d = none) (hm : maxSev (procsOf d) = some m) :
    rootSel d = some (synthRoot m) := by
  unfold rootSel
  rw [hf, hm]
  rfl

lemma guidLookup_mem {procs : List (Nat × Record)} {g : Option String}
    {x : Nat × Record} (h : guidLookup procs g = some x) : x ∈ procs := by
  unfold guidLookup at h
  by_cases ht : isTruthyStr g = true
  · rw [if_pos ht] at h
    exact List.mem_reverse.mp (List.mem_of_find?_eq_some h)
  · rw [if_neg ht] at h
    cases h

lemma parentE_mem {d : List Record} {e pe : Nat × Record}
    (h : parentE d e = some pe) : pe ∈ procs1 d :=
  guidLookup_mem h

lemma grandE_mem {d : List Record} {e ge : Nat × Record}
    (h : grandE d e = some ge) : ge ∈ procs1 d := by
  unfold grandE at h
  cases hp : parentE d e with
  | none => rw [hp] at h; cases h
  | some pe =>
    rw [hp] at h
    exact guidLookup_mem h

lemma getRec_setTraceAt_some {st : List (Nat × Record)} {j i : Nat}
    {t : Option String} {r : Record} (h : getRec st i = some r) :
    ∃ s, getRec (setTraceAt st j t).1 i = some s := by
  by_cases hij : i = j
  · subst hij
    rw [getRec_setTraceAt_self, h]
    exact ⟨_, rfl⟩
  · rw [getRec_setTraceAt_ne hij]
    exact ⟨r, h⟩

lemma getRec_applyUpdates_some {U : List (Nat × Option String)}
    {st : List (Nat × Record)} {i : Nat} {r : Record} (h : getRec st i = some r) :
    ∃ s, getRec (applyUpdates st U).1 i = some s := by
  induction U generalizing st r with
  | nil => exact ⟨r, h⟩
  | cons u tl ih =>
    rw [(applyUpdates_cons st u tl).1]
    obtain ⟨s, hs⟩ := getRec_setTraceAt_some (j := u.1) (t := u.2) h
    exact ih hs

lemma traceUpdates_cases {d : List Record} {e : Nat × Record}
    {u : Nat × Option String} (h : u ∈ traceUpdates d e) :
    (∃ pe, parentE d e = some pe ∧ u.1 = pe.1) ∨
    (∃ ge, grandE d e = some ge ∧ u.1 = ge.1) ∨
    (∃ x ∈ descendants d e, u = (x.1, e.2.traceId)) := by
  unfold traceUpdates at h
  rcases List.mem_append.mp h with h1 | h3
  · rcases List.mem_append.mp h1 with hp | hg
    · cases hpe : parentE d e with
      | none => rw [hpe] at hp; cases hp
      | some pe =>
        rw [hpe] at hp
        rcases List.mem_cons.mp hp with rfl | hc
        · exact Or.inl ⟨pe, rfl, rfl⟩
        · cases hc
    · cases hge : grandE d e with
      | none => rw [hge] at hg; cases hg
      | some ge =>
        rw [hge] at hg
        rcases List.mem_cons.mp hg with rfl | hc
        · exact Or.inr (Or.inl ⟨ge, rfl, rfl⟩)
        · cases hc
  · obtain ⟨x, hx, hxu⟩ := List.mem_map.mp h3
    exact Or.inr (Or.inr ⟨x, hx, hxu.symm⟩)

lemma desc_idx_ne_root {d : List Record} {e : Nat × Record}
    (h : rootSel d = some e) : ∀ x ∈ descendants d e, x.1 ≠ e.1 := by
  intro x hx hxe
  have hx1 : x ∈ procs1 d := descendants_sub d e x hx
  have he1 : e ∈ procs1 d := rootSel_mem h
  have hxeq : x = e := keys_unique (keys_nodup_procs1 d) hx1 he1 hxe
  exact descendants_guid_ne d e x hx (by rw [hxeq])

lemma no_target_root {d : List Record} {e : Nat × Record}
    (h : rootSel d = some e)
    (hp : ∀ pe, parentE d e = some pe → pe.1 ≠ e.1)
    (hg : ∀ ge, grandE d e = some ge → ge.1 ≠ e.1) :
    ∀ u ∈ traceUpdates d e, u.1 ≠ e.1 := by
  intro u hu
  rcases traceUpdates_cases hu with ⟨pe, hpe, h1⟩ | ⟨ge, hge, h1⟩ | ⟨x, hx, h1⟩
  · rw [h1]; exact hp pe hpe
  · rw [h1]; exact hg ge hge
  · rw [h1]; exact desc_idx_ne_root h x hx

lemma validGuids_root (d : List Record) (e : Nat × Record) :
    e.2.processGuid ∈ validGuids d e :=
  List.mem_cons_self _ _

lemma validGuids_desc {d : List Record} {e de : Nat × Record}
    (h : de ∈ descendants d e) : de.2.processGuid ∈ validGuids d e := by
  unfold validGuids
  apply List.mem_cons_of_mem
  apply List.mem_append.mpr
  right
  exact List.mem_map_of_mem _ h

lemma kept_mem_fixCase {d : List Record} {e : Nat × Record} {x : Nat × Record}
    (h : rootSel d = some e) (hw : needsWrite d e = true)
    (hx : x ∈ (procs4 d e).1) (hg : x.2.processGuid ∈ validGuids d e) :
    x.2 ∈ fixCase d := by
  rw [fixCase_eq_serialized h hw]
  apply serialized_mem_of_kept
  exact List.mem_filter.mpr ⟨hx, decide_eq_true hg⟩

lemma procsOf_to_procs1_guid {d : List Record} {i : Nat} {r : Record}
    (h : (i, r) ∈ procsOf d) :
    ∃ y ∈ procs1 d, y.1 = i ∧ y.2.processGuid = r.processGuid := by
  unfold procs1
  cases hf : findRootPre d with
  | some e => exact ⟨(i, r), h, rfl, rfl⟩
  | none =>
    cases hm : maxSev (procsOf d) with
    | none => exact ⟨(i, r), h, rfl, rfl⟩
    | some m =>
      have himg := List.mem_map_of_mem
        (fun x => if x.1 = m.1 then (x.1, (synthRoot m).2) else x) h
      by_cases him : i = m.1
      · have hrm : (i, r) = m :=
          keys_unique (keys_nodup_procsOf d) h (maxSev_mem hm) him
        refine ⟨(i, (synthRoot m).2), ?_, rfl, ?_⟩
        · simpa [him] using himg
        · rw [← hrm]
          simp [synthRoot]
      · refine ⟨(i, r), ?_, rfl, rfl⟩
        simpa [him] using himg

lemma nonProcCond_false_facts {t : Option String} {r : Record}
    (h : nonProcCond t r = false) :
    r.traceId = t ∨ isTruthyStr r.traceId = false := by
  unfold nonProcCond at h
  rw [Bool.and_eq_false_iff] at h
  rcases h with h | h
  · exact Or.inr h
  · rw [decide_eq_false_iff_not] at h
    push_neg at h
    exact Or.inl h

lemma derive_ne (r1 r2 : Record) :
    ¬ deriveTrace "traceId-parent-" r1 = deriveTrace "traceId-grandpa-" r2 := by
  intro h
  unfold deriveTrace at h
  have hd := congrArg String.data h
  rw [String.data_append, String.data_append] at hd
  have h9 := congrArg (fun l => l.take 9) hd
  simp only at h9
  rw [List.take_append_of_le_length (by decide),
    List.take_append_of_le_length (by decide)] at h9
  exact absurd h9 (by decide)

/-! ### Claim theorems -/

/-- C1 (amended): after normalization the selected root record satisfies
`root.processGuid == root.traceId` provided the root was selected already
satisfying `processGuid == traceId` (criterion 2 of the root search) and the
root record is not simultaneously resolved as its own parent or grandparent.
The unamended claim is false: an `isRoot`-selected root with a differing
`traceId` keeps the mismatch (see the counterexample). -/
theorem c1_root_identity (d : List Record) (e : Nat × Record)
    (hf : findRootPre d = some e) (hguid : e.2.processGuid = e.2.traceId)
    (hp : ∀ pe, parentE d e = some pe → pe.1 ≠ e.1)
    (hg : ∀ ge, grandE d e = some ge → ge.1 ≠ e.1) :
    ∃ r, getRec (procs4 d e).1 e.1 = some r ∧ r.processGuid = r.traceId ∧
      r ∈ fixCase d := by
  have hsel : rootSel d = some e := rootSel_of_found hf
  have hroot := rootSel_getRec hsel
  have hfinal : getRec (procs4 d e).1 e.1 = some e.2 := by
    unfold procs4
    rw [getRec_applyUpdates_ne (no_target_root hsel hp hg)]
    exact hroot
  refine ⟨e.2, hfinal, hguid, ?_⟩
  by_cases hw : needsWrite d e = true
  · exact kept_mem_fixCase hsel hw (mem_of_getRec hfinal) (validGuids_root d e)
  · rw [fixCase_eq_self hsel (by simpa using hw)]
    have : e ∈ procsOf d := by
      rw [← procs1_of_found hf]
      exact rootSel_mem hsel
    exact procsOf_mem_orig this

/-- C1 witness: a root found with `processGuid == traceId` and no parent
keeps the identity in the output. -/
theorem c1_root_identity_witness :
    ∃ r, getRec (procs4 w1d (0, w1rec)).1 0 = some r ∧
      r.processGuid = r.traceId ∧ r ∈ fixCase w1d :=
  c1_root_identity w1d (0, w1rec) (by decide) (by decide)
    (fun pe hpe => by
      rw [(by decide : parentE w1d (0, w1rec) = none)] at hpe
      cases hpe)
    (fun ge hge => by
      rw [(by decide : grandE w1d (0, w1rec) = none)] at hge
      cases hge)

/-- C1 counterexample: the single process of `c1d` is selected as root via
`isRoot`, normalization leaves the file unchanged, and the root's
`processGuid` differs from its `traceId` in the output. -/
theorem c1_counterexample :
    rootSel c1d = some (0, c1rec) ∧ fixCase c1d = c1d ∧
    c1rec.isRoot = true ∧ ¬ c1rec.processGuid = c1rec.traceId := by decide

/-- C2 (amended): every record collected by the normalizer's guid-keyed BFS
descendant traversal carries the root's adopted trace id after
normalization, and survives into the output.  The unamended claim
(quantified over the edge-computed descendant closure) fails under
duplicate guids: see the counterexample. -/
theorem c2_descendant_trace (d : List Record) (e de : Nat × Record)
    (h : rootSel d = some e) (hde : de ∈ descendants d e) :
    ∃ r, getRec (procs4 d e).1 de.1 = some r ∧ r.traceId = e.2.traceId ∧
      r ∈ fixCase d := by
  have hde1 : de ∈ procs1 d := descendants_sub d e de hde
  have hrec1 : getRec (procs1 d) de.1 = some de.2 :=
    getRec_of_mem (keys_nodup_procs1 d) hde1
  have hp4 : (procs4 d e).1 =
      (applyUpdates (applyUpdates (procs1 d)
        ((match parentE d e with
          | none => []
          | some pe => [(pe.1, some (deriveTrace "traceId-parent-" pe.2))]) ++
         (match grandE d e with
          | none => []
          | some ge => [(ge.1, some (deriveTrace "traceId-grandpa-" ge.2))]))).1
        ((descendants d e).map (fun x => (x.1, e.2.traceId)))).1 := by
    unfold procs4 traceUpdates
    exact applyUpdates_append _ _ _
  obtain ⟨s0, hs0⟩ := getRec_applyUpdates_some
    (U := (match parentE d e with
      | none => []
      | some pe => [(pe.1, some (deriveTrace "traceId-parent-" pe.2))]) ++
     (match grandE d e with
      | none => []
      | some ge => [(ge.1, some (deriveTrace "traceId-grandpa-" ge.2))])) hrec1
  obtain ⟨r, hr, hrt⟩ := getRec_applyUpdates_const
    (U := (descendants d e).map (fun x => (x.1, e.2.traceId)))
    (t := e.2.traceId)
    (fun u hu _ => by
      obtain ⟨x, _, hxu⟩ := List.mem_map.mp hu
      rw [← hxu])
    hs0
    (Or.inr ⟨(de.1, e.2.traceId), List.mem_map_of_mem _ hde, rfl⟩)
  rw [← hp4] at hr
  refine ⟨r, hr, hrt, ?_⟩
  by_cases hw : needsWrite d e = true
  · have hmem : (de.1, r) ∈ (procs4 d e).1 := mem_of_getRec hr
    obtain ⟨y, hy, hy1, hyg, _, _⟩ := mem_applyUpdates (U := traceUpdates d e) hmem
    have hyde : y = de :=
      keys_unique (keys_nodup_procs1 d) hy hde1 hy1.symm
    have hguid : r.processGuid = de.2.processGuid := by
      rw [hyg, hyde]
    exact kept_mem_fixCase h hw hmem (hguid ▸ validGuids_desc hde)
  · have hwf := needsWrite_false (by simpa using hw)
    have hsame : (procs4 d e).1 = procs1 d := applyUpdates_zero hwf.1
    rw [hsame, hrec1] at hr
    have hrde : r = de.2 := by injection hr.symm
    rw [fixCase_eq_self h (by simpa using hw), hrde]
    rcases procs1_mem_orig hde1 with hpo | ⟨hnone, m, hm, hsyn⟩
    · exact procsOf_mem_orig hpo
    · exfalso
      have hem : e = synthRoot m := by
        have := rootSel_synth hnone hm
        rw [h] at this
        injection this
      apply descendants_guid_ne d e de hde
      rw [hsyn, hem]

/-- C2 witness: the child of the root in `w2d` is a BFS descendant and ends
with the root's trace id in the output. -/
theorem c2_descendant_trace_witness :
    ∃ r, getRec (procs4 w2d (0, w2R)).1 1 = some r ∧
      r.traceId = some "R" ∧ r ∈ fixCase w2d :=
  c2_descendant_trace w2d (0, w2R) (1, w2C) (by decide) (by decide)

/-- C2 counterexample: in `c2d`, the record `c2X` is in the edge-computed
descendant closure of the root (its parent guid is reachable), yet after
normalization it is present in the output with its stale trace id, which
differs from the root's. -/
theorem c2_counterexample :
    c2X.parentProcessGuid ∈ specDescGuids c2d (some "R") 4 ∧
    rootSel c2d = some (0, c2R) ∧ c2X ∈ fixCase c2d ∧
    c2X.traceId = some "s" ∧ c2R.traceId = some "R" ∧
    ¬ c2X.traceId = c2R.traceId := by decide

/-- C3 (amended): whenever parent and grandparent resolve to records at
distinct store positions, both distinct from the root's and outside the
descendant set, their normalized trace ids are the fixed-prefix derivations
from their own guids; the two derivations never collide, and both differ
from the root's trace id as long as the root's trace id is not itself a
string of the derived shape.  The unamended pairwise-distinctness claim is
false: a self-parented parent makes the grandparent the very same record
(see the counterexample). -/
theorem c3_ancestor_traces (d : List Record) (e pe ge : Nat × Record)
    (h : rootSel d = some e) (hpe : parentE d e = some pe)
    (hge : grandE d e = some ge)
    (hpg : ¬ pe.1 = ge.1) (hep : ¬ e.1 = pe.1) (heg : ¬ e.1 = ge.1)
    (hpd : ∀ x ∈ descendants d e, ¬ x.1 = pe.1)
    (hgd : ∀ x ∈ descendants d e, ¬ x.1 = ge.1)
    (hrp : ¬ e.2.traceId = some (deriveTrace "traceId-parent-" pe.2))
    (hrg : ¬ e.2.traceId = some (deriveTrace "traceId-grandpa-" ge.2)) :
    ∃ rr pr gr,
      getRec (procs4 d e).1 e.1 = some rr ∧
      getRec (procs4 d e).1 pe.1 = some pr ∧
      getRec (procs4 d e).1 ge.1 = some gr ∧
      pr.traceId = some (deriveTrace "traceId-parent-" pe.2) ∧
      gr.traceId = some (deriveTrace "traceId-grandpa-" ge.2) ∧
      ¬ rr.traceId = pr.traceId ∧ ¬ rr.traceId = gr.traceId ∧
      ¬ pr.traceId = gr.traceId := by
  have hus : traceUpdates d e =
      (pe.1, some (deriveTrace "traceId-parent-" pe.2)) ::
      (ge.1, some (deriveTrace "traceId-grandpa-" ge.2)) ::
      (descendants d e).map (fun x => (x.1, e.2.traceId)) := by
    unfold traceUpdates
    rw [hpe, hge]
    rfl
  have hp4 : (procs4 d e).1 =
      (applyUpdates (setTraceAt
        (setTraceAt (procs1 d) pe.1 (some (deriveTrace "traceId-parent-" pe.2))).1
        ge.1 (some (deriveTrace "traceId-grandpa-" ge.2))).1
        ((descendants d e).map (fun x => (x.1, e.2.traceId)))).1 := by
    unfold procs4
    rw [hus, (applyUpdates_cons _ _ _).1, (applyUpdates_cons _ _ _).1]
  have hdesc_ne : ∀ (i : Nat), (∀ x ∈ descendants d e, ¬ x.1 = i) →
      ∀ u ∈ (descendants d e).map (fun x => (x.1, e.2.traceId)), u.1 ≠ i := by
    intro i hi u hu
    obtain ⟨x, hx, hxu⟩ := List.mem_map.mp hu
    rw [← hxu]
    exact hi x hx
  -- parent record
  have hpmem : getRec (procs1 d) pe.1 = some pe.2 :=
    getRec_of_mem (keys_nodup_procs1 d) (parentE_mem hpe)
  have hpr : getRec (procs4 d e).1 pe.1 =
      some { pe.2 with traceId := some (deriveTrace "traceId-parent-" pe.2) } := by
    rw [hp4, getRec_applyUpdates_ne (hdesc_ne pe.1 hpd),
      getRec_setTraceAt_ne (fun hc => hpg hc), getRec_setTraceAt_self, hpmem]
    rfl
  -- grandparent record
  have hgmem : getRec (procs1 d) ge.1 = some ge.2 :=
    getRec_of_mem (keys_nodup_procs1 d) (grandE_mem hge)
  have hgr : getRec (procs4 d e).1 ge.1 =
      some { ge.2 with traceId := some (deriveTrace "traceId-grandpa-" ge.2) } := by
    rw [hp4, getRec_applyUpdates_ne (hdesc_ne ge.1 hgd), getRec_setTraceAt_self,
      getRec_setTraceAt_ne (fun hc => hpg hc.symm), hgmem]
    rfl
  -- root record
  have hroot : getRec (procs4 d e).1 e.1 = some e.2 := by
    unfold procs4
    rw [getRec_applyUpdates_ne (no_target_root h
      (fun pe' hpe' => by
        rw [hpe] at hpe'
        injection hpe' with hpe''
        rw [← hpe'']
        exact fun hc => hep hc.symm)
      (fun ge' hge' => by
        rw [hge] at hge'
        injection hge' with hge''
        rw [← hge'']
        exact fun hc => heg hc.symm))]
    exact rootSel_getRec h
  refine ⟨e.2, _, _, hroot, hpr, hgr, rfl, rfl, hrp, hrg, ?_⟩
  intro hc
  simp only [Option.some_inj] at hc
  exact derive_ne pe.2 ge.2 hc

/-- C3 witness: a clean three-node chain root → parent → grandparent gets
the three pairwise-distinct trace ids. -/
theorem c3_ancestor_traces_witness :
    ∃ rr pr gr,
      getRec (procs4 w3d (0, w3R)).1 0 = some rr ∧
      getRec (procs4 w3d (0, w3R)).1 1 = some pr ∧
      getRec (procs4 w3d (0, w3R)).1 2 = some gr ∧
      pr.traceId = some (deriveTrace "traceId-parent-" w3P1) ∧
      gr.traceId = some (deriveTrace "traceId-grandpa-" w3P2) ∧
      ¬ rr.traceId = pr.traceId ∧ ¬ rr.traceId = gr.traceId ∧
      ¬ pr.traceId = gr.traceId :=
  c3_ancestor_traces w3d (0, w3R) (1, w3P1) (2, w3P2) (by decide) (by decide)
    (by decide) (by decide) (by decide) (by decide)
    (fun x hx => by
      rw [(by decide : descendants w3d (0, w3R) = [])] at hx
      cases hx)
    (fun x hx => by
      rw [(by decide : descendants w3d (0, w3R) = [])] at hx
      cases hx)
    (by decide) (by decide)

/-- C3 counterexample: with a self-parented parent the grandparent lookup
returns the same record, so the "parent's" and "grandparent's" trace ids
coincide after normalization, refuting pairwise distinctness. -/
theorem c3_counterexample :
    rootSel c3d = some (0, c3R) ∧
    parentE c3d (0, c3R) = some (1, c3P) ∧
    grandE c3d (0, c3R) = some (1, c3P) ∧
    getRec (procs4 c3d (0, c3R)).1 1 =
      some { c3P with traceId := some "traceId-grandpa-P" } := by decide

/-- C4: for every process list and start guid the descendant BFS worklist
completes within `bfsFuel` fuel (so normalization terminates with a finite
output on every input, cycles included), its visited set holds each guid at
most once, and on the spec's two-node parent cycle `fix_case` produces the
expected finite output with the cycle edge cut. -/
theorem c4_termination :
    (∀ (procs : List (Nat × Record)) (g : Option String),
      ∃ ds vis, bfsRun procs g = some (ds, vis) ∧ vis.Nodup) ∧
    fixCase c4d = [c4Afix, c4Bfix] := by
  constructor
  · intro procs g
    obtain ⟨out, hout⟩ := bfs_total procs g
    exact ⟨out.1, out.2, hout,
      bfs_nodup (bfsFuel procs) [g] [] [] out.1 out.2 List.nodup_nil hout⟩
  · decide

/-- C5 (amended): every process record in the output has its guid in the
keep-set; when a rewrite occurs, every alert/file/registry record survives
(after the non-process trace fix) and every emitted non-process record is of
one of those three types — records of other non-process types (for example
`logType == 'network'`) are dropped, and file/registry records are never
guid-filtered.  The unamended claim fails on both counts (see the
counterexample). -/
theorem c5_prune (d : List Record) (e : Nat × Record) (h : rootSel d = some e) :
    (∀ r ∈ fixCase d, r.logType = some "process" →
      r.processGuid ∈ validGuids d e) ∧
    (needsWrite d e = true → ∀ x ∈ nonProcsOf d,
      (x.2.logType = some "alert" ∨ x.2.logType = some "file" ∨
       x.2.logType = some "registry") →
      fixNonProc e.2.traceId x.2 ∈ fixCase d) ∧
    (needsWrite d e = true → ∀ r ∈ fixCase d, ¬ r.logType = some "process" →
      (r.logType = some "alert" ∨ r.logType = some "file" ∨
       r.logType = some "registry")) := by
  refine ⟨?_, ?_, ?_⟩
  · intro r hr hproc
    by_cases hw : needsWrite d e = true
    · rw [fixCase_eq_serialized h hw] at hr
      rcases serialized_cases hr with ⟨x, hx, hrx, _⟩ | ⟨x, hx, hrx⟩
      · exfalso
        apply nonFixedOf_logType hx
        rw [← hrx]
        exact hproc
      · unfold keptProcs at hx
        have hd := List.of_mem_filter hx
        rw [hrx]
        exact of_decide_eq_true hd
    · rw [fixCase_eq_self h (by simpa using hw)] at hr
      obtain ⟨i, hi⟩ := mem_to_procsOf hr hproc
      obtain ⟨y, hy, _, hyg⟩ := procsOf_to_procs1_guid hi
      have hwf := needsWrite_false (by simpa using hw)
      have hsame : (procs4 d e).1 = procs1 d := applyUpdates_zero hwf.1
      have hv := kept_all_of_removed0 hwf.2.2 y (by rw [hsame]; exact hy)
      rw [← hyg]
      exact hv
  · intro hw x hx hlog
    rw [fixCase_eq_serialized h hw]
    unfold serialized
    have hmemNF : (x.1, fixNonProc e.2.traceId x.2) ∈ nonFixedOf d e :=
      List.mem_map_of_mem _ hx
    have hlt : (fixNonProc e.2.traceId x.2).logType = x.2.logType :=
      fixNonProc_logType _ _
    have hmem2 : (x.1, fixNonProc e.2.traceId x.2) ∈
        ((nonFixedOf d e).filter (fun x => decide (x.2.logType = some "alert")) ++
         (nonFixedOf d e).filter (fun x => decide (x.2.logType = some "file")) ++
         (nonFixedOf d e).filter (fun x => decide (x.2.logType = some "registry")) ++
         List.insertionSort pidLe (keptProcs d e)) := by
      rcases hlog with ha | hf | hg
      · apply List.mem_append.mpr
        left
        apply List.mem_append.mpr
        left
        apply List.mem_append.mpr
        left
        exact List.mem_filter.mpr ⟨hmemNF, decide_eq_true (by rw [hlt]; exact ha)⟩
      · apply List.mem_append.mpr
        left
        apply List.mem_append.mpr
        left
        apply List.mem_append.mpr
        right
        exact List.mem_filter.mpr ⟨hmemNF, decide_eq_true (by rw [hlt]; exact hf)⟩
      · apply List.mem_append.mpr
        left
        apply List.mem_append.mpr
        right
        exact List.mem_filter.mpr ⟨hmemNF, decide_eq_true (by rw [hlt]; exact hg)⟩
    exact List.mem_map.mpr ⟨(x.1, fixNonProc e.2.traceId x.2), hmem2, rfl⟩
  · intro hw r hr hnproc
    rw [fixCase_eq_serialized h hw] at hr
    rcases serialized_cases hr with ⟨x, _, hrx, hlt⟩ | ⟨x, hx, hrx⟩
    · rw [hrx]
      exact hlt
    · exfalso
      apply hnproc
      rw [hrx]
      exact keptProcs_logType hx

/-- C5 witness: in `c5d` the root keeps its guid in the keep-set, the file
record survives the rewrite, and the emitted file record is of an emitted
non-process type. -/
theorem c5_prune_witness :
    c5R.processGuid ∈ validGuids c5d (2, c5R) ∧
    fixNonProc (some "R") c5F ∈ fixCase c5d ∧
    (c5Ffix.logType = some "alert" ∨ c5Ffix.logType = some "file" ∨
     c5Ffix.logType = some "registry") :=
  ⟨(c5_prune c5d (2, c5R) (by decide)).1 c5R (by decide) (by decide),
   (c5_prune c5d (2, c5R) (by decide)).2.1 (by decide) (1, c5F) (by decide)
     (by decide),
   (c5_prune c5d (2, c5R) (by decide)).2.2 (by decide) c5Ffix (by decide)
     (by decide)⟩

/-- C5 counterexample: after normalizing `c5d`, the guid-less `network`
record is dropped (the claim says records with no guid are present) while
the file record with a guid outside the keep-set is kept (the claim says it
is absent). -/
theorem c5_counterexample :
    rootSel c5d = some (2, c5R) ∧ fixCase c5d = [c5Ffix, c5R] ∧
    ¬ c5N ∈ fixCase c5d ∧ c5N.processGuid = none ∧
    c5Ffix.processGuid = some "Z" ∧
    ¬ (some "Z") ∈ validGuids c5d (2, c5R) := by decide

/-- C6: normalization is not idempotent.  On the two-node parent cycle
`c6d` (root's parent is also the root's child), the second run changes the
child's trace id again, so the second output differs from its input,
contradicting the spec's idempotence and cycle-edges-treated-as-absent
requirements. -/
theorem c6_not_idempotent : ¬ fixCase (fixCase c6d) = fixCase c6d := by decide

/-- C7 (amended): the lineage index (`guid_map`) resolves a duplicated guid
to the later of the two occurrences (last-write-wins), but the output
itself does not deduplicate records sharing a guid (see the
counterexample). -/
theorem c7_index_last_wins (procs : List (Nat × Record)) (g : Option String)
    (f : Nat × Record) (ht : isTruthyStr g = true) :
    guidLookup (procs ++ [f]) g =
      if f.2.processGuid = g then some f else guidLookup procs g := by
  unfold guidLookup
  rw [if_pos ht, if_pos ht, List.reverse_append]
  by_cases hf : f.2.processGuid = g
  · rw [if_pos hf]
    simp [List.find?, hf]
  · rw [if_neg hf]
    simp [List.find?, hf]

/-- C7 witness: with two entries sharing guid `G`, the lookup returns the
later entry. -/
theorem c7_index_last_wins_witness :
    guidLookup ([(0, w7a)] ++ [(1, w7b)]) (some "G") = some (1, w7b) := by
  rw [c7_index_last_wins [(0, w7a)] (some "G") (1, w7b) (by decide)]
  decide

/-- C7 counterexample: the normalized output of `c7d` contains two records
with guid `G`, not exactly one. -/
theorem c7_counterexample :
    (fixCase c7d).countP (fun r => decide (r.processGuid = some "G")) = 2 := by
  decide

/-- C8 (amended): when no record matches the root criteria, the selector
picks the process record with the highest severity among all process
records (not only top-level ones; the first wins), marks it `isRoot`, and
unconditionally overwrites its `traceId` with its own guid (or the
placeholder when the guid is absent) — even when a trace id was already
present (see the counterexample). -/
theorem c8_severity_fallback (d : List Record) (m : Nat × Record)
    (hf : findRootPre d = none) (hm : maxSev (procsOf d) = some m) :
    m ∈ procsOf d ∧ (∀ x ∈ procsOf d, sevKey x ≤ sevKey m) ∧
    rootSel d = some (synthRoot m) ∧ (synthRoot m).2.isRoot = true ∧
    (∀ g : String, m.2.processGuid = some g →
      (synthRoot m).2.traceId = some g) ∧
    (m.2.processGuid = none →
      (synthRoot m).2.traceId =
        some ("traceId-" ++ toString (m.2.processId.getD 999))) := by
  refine ⟨maxSev_mem hm, maxSev_le hm, rootSel_synth hf hm, rfl, ?_, ?_⟩
  · intro g hg
    unfold synthRoot
    simp [hg]
  · intro hg
    unfold synthRoot
    simp [hg]

/-- C8 witness: in `c8d` the severity-5 process is chosen and synthesized. -/
theorem c8_severity_fallback_witness :
    (0, c8P) ∈ procsOf c8d ∧
    (∀ x ∈ procsOf c8d, sevKey x ≤ sevKey (0, c8P)) ∧
    rootSel c8d = some (synthRoot (0, c8P)) ∧
    (synthRoot (0, c8P)).2.isRoot = true ∧
    (∀ g : String, (0, c8P).2.processGuid = some g →
      (synthRoot (0, c8P)).2.traceId = some g) ∧
    ((0, c8P).2.processGuid = none →
      (synthRoot (0, c8P)).2.traceId =
        some ("traceId-" ++ toString ((0, c8P).2.processId.getD 999))) :=
  c8_severity_fallback c8d (0, c8P) (by decide) (by decide)

/-- C8 counterexample: the fallback root of `c8d` HAS a trace id (`X`), yet
the output shows it overwritten with the guid `G`; the claim said the trace
id is set to the guid only when absent. -/
theorem c8_counterexample :
    findRootPre c8d = none ∧ fixCase c8d = [c8Pfix, c8Cfix] ∧
    c8P.traceId = some "X" ∧ c8Pfix.traceId = some "G" ∧
    ¬ c8Pfix.traceId = some "X" := by decide

lemma rankOf_alert {r : Record} (h : r.logType = some "alert") : rankOf r = 0 := by
  unfold rankOf
  rw [h]
  decide

lemma rankOf_file {r : Record} (h : r.logType = some "file") : rankOf r = 1 := by
  unfold rankOf
  rw [h]
  decide

lemma rankOf_registry {r : Record} (h : r.logType = some "registry") :
    rankOf r = 2 := by
  unfold rankOf
  rw [h]
  decide

lemma rankOf_process {r : Record} (h : r.logType = some "process") :
    rankOf r = 3 := by
  unfold rankOf
  rw [h]
  decide

/-- C9 (amended): whenever the normalizer actually rewrites the file (at
least one field change or removal), the emitted order is canonical: alert
records first, then file records, then registry records, then process
records ascending by `processId`; when nothing changes the input order is
preserved verbatim (see the counterexample). -/
theorem c9_canonical_order (d : List Record) (e : Nat × Record)
    (h : rootSel d = some e) (hw : needsWrite d e = true) :
    List.Pairwise
      (fun a b => rankOf a ≤ rankOf b ∧ (rankOf a = 3 → pidKey a ≤ pidKey b))
      (fixCase d) := by
  rw [fixCase_eq_serialized h hw]
  unfold serialized
  rw [List.pairwise_map]
  have hA : ∀ x ∈ (nonFixedOf d e).filter
      (fun x => decide (x.2.logType = some "alert")), rankOf x.2 = 0 := by
    intro x hx
    have hd := List.of_mem_filter hx
    exact rankOf_alert (of_decide_eq_true hd)
  have hF : ∀ x ∈ (nonFixedOf d e).filter
      (fun x => decide (x.2.logType = some "file")), rankOf x.2 = 1 := by
    intro x hx
    have hd := List.of_mem_filter hx
    exact rankOf_file (of_decide_eq_true hd)
  have hG : ∀ x ∈ (nonFixedOf d e).filter
      (fun x => decide (x.2.logType = some "registry")), rankOf x.2 = 2 := by
    intro x hx
    have hd := List.of_mem_filter hx
    exact rankOf_registry (of_decide_eq_true hd)
  have hS : ∀ x ∈ List.insertionSort pidLe (keptProcs d e), rankOf x.2 = 3 := by
    intro x hx
    exact rankOf_process (keptProcs_logType
      (((List.perm_insertionSort pidLe (keptProcs d e)).mem_iff).mp hx))
  have hSorted : List.Pairwise pidLe (List.insertionSort pidLe (keptProcs d e)) :=
    List.sorted_insertionSort pidLe (keptProcs d e)
  have hSpair : List.Pairwise
      (fun a b : Nat × Record => rankOf a.2 ≤ rankOf b.2 ∧
        (rankOf a.2 = 3 → pidKey a.2 ≤ pidKey b.2))
      (List.insertionSort pidLe (keptProcs d e)) := by
    refine hSorted.imp_of_mem ?_
    intro a b ha hb hab
    rw [hS a ha, hS b hb]
    exact ⟨le_refl 3, fun _ => hab⟩
  have low_pair : ∀ (l : List (Nat × Record)) (k : Nat), k < 3 →
      (∀ x ∈ l, rankOf x.2 = k) →
      List.Pairwise (fun a b : Nat × Record => rankOf a.2 ≤ rankOf b.2 ∧
        (rankOf a.2 = 3 → pidKey a.2 ≤ pidKey b.2)) l := by
    intro l k hk hl
    apply List.pairwise_of_forall_mem_list
    intro a ha b hb
    rw [hl a ha, hl b hb]
    exact ⟨le_refl k, fun h3 => absurd (h3 ▸ hk) (by omega)⟩
  rw [List.pairwise_append]
  refine ⟨?_, hSpair, ?_⟩
  · rw [List.pairwise_append]
    refine ⟨?_, low_pair _ 2 (by omega) hG, ?_⟩
    · rw [List.pairwise_append]
      refine ⟨low_pair _ 0 (by omega) hA, low_pair _ 1 (by omega) hF, ?_⟩
      · intro a ha b hb
        rw [hA a ha, hF b hb]
        exact ⟨by omega, fun h3 => absurd h3 (by omega)⟩
    · intro a ha b hb
      rcases List.mem_append.mp ha with ha' | ha'
      · rw [hA a ha', hG b hb]
        exact ⟨by omega, fun h3 => absurd h3 (by omega)⟩
      · rw [hF a ha', hG b hb]
        exact ⟨by omega, fun h3 => absurd h3 (by omega)⟩
  · intro a ha b hb
    have hbr := hS b hb
    rcases List.mem_append.mp ha with ha1 | hag
    · rcases List.mem_append.mp ha1 with haa | haf
      · rw [hA a haa, hbr]
        exact ⟨by omega, fun h3 => absurd h3 (by omega)⟩
      · rw [hF a haf, hbr]
        exact ⟨by omega, fun h3 => absurd h3 (by omega)⟩
    · rw [hG a hag, hbr]
      exact ⟨by omega, fun h3 => absurd h3 (by omega)⟩

/-- C9 witness: on a mixed input needing a rewrite, the output is in
canonical group/pid order. -/
theorem c9_canonical_order_witness :
    List.Pairwise
      (fun a b => rankOf a ≤ rankOf b ∧ (rankOf a = 3 → pidKey a ≤ pidKey b))
      (fixCase w9d) :=
  c9_canonical_order w9d (3, w9P1) (by decide) (by decide)

/-- C9 counterexample: an already-normalized input that needs no rewrite is
returned in its original order — here a process record precedes the alert
record, violating the canonical ordering claim. -/
theorem c9_counterexample :
    fixCase c9d = [c9P, c9A] ∧ rankOf c9P = 3 ∧ rankOf c9A = 0 := by decide

/-- C10: a non-process record with a non-empty `traceId` different from the
root's is rewritten to the root's trace id; one lacking a `traceId` is left
without one; and in every normalized output each emitted non-process record
carries the root's trace id or a falsy (absent/empty) one. -/
theorem c10_nonproc_rewrite :
    (∀ (t : Option String) (r : Record) (s : String), r.traceId = some s →
      ¬ s = "" → ¬ some s = t → (fixNonProc t r).traceId = t) ∧
    (∀ (t : Option String) (r : Record), r.traceId = none →
      (fixNonProc t r).traceId = none) ∧
    (∀ (d : List Record) (e : Nat × Record), rootSel d = some e →
      ∀ r ∈ fixCase d, ¬ r.logType = some "process" →
      (r.traceId = e.2.traceId ∨ isTruthyStr r.traceId = false)) := by
  refine ⟨?_, ?_, ?_⟩
  · intro t r s hs hne hnt
    have hcond : nonProcCond t r = true := by
      unfold nonProcCond isTruthyStr
      rw [hs]
      simp only [decide_eq_true_eq]
      rw [decide_eq_true (show (s ≠ "") from hne), Bool.true_and]
      exact decide_eq_true (hs ▸ hnt)
    unfold fixNonProc
    rw [if_pos hcond]
  · intro t r hr
    have hcond : nonProcCond t r = false := by
      unfold nonProcCond isTruthyStr
      rw [hr]
      rfl
    unfold fixNonProc
    rw [if_neg (by simp [hcond])]
    exact hr
  · intro d e h r hr hnp
    by_cases hw : needsWrite d e = true
    · rw [fixCase_eq_serialized h hw] at hr
      rcases serialized_cases hr with ⟨x, hx, hrx, _⟩ | ⟨x, hx, hrx⟩
      · have hx' : x ∈ (nonProcsOf d).map
            (fun y => (y.1, fixNonProc e.2.traceId y.2)) := hx
        obtain ⟨y, _, hxy⟩ := List.mem_map.mp hx'
        rw [hrx, ← hxy]
        exact fixNonProc_traceFacts e.2.traceId y.2
      · exfalso
        exact hnp (by rw [hrx]; exact keptProcs_logType hx)
    · rw [fixCase_eq_self h (by simpa using hw)] at hr
      obtain ⟨i, hi⟩ := mem_to_nonProcsOf hr hnp
      have hwf := needsWrite_false (by simpa using hw)
      have hcnt : (nonProcsOf d).countP
          (fun x => nonProcCond e.2.traceId x.2) = 0 := hwf.2.1
      have hnc := List.countP_eq_zero.mp hcnt (i, r) hi
      exact nonProcCond_false_facts (by simpa using hnc)

/-- C10 witness: a network record with stale trace id `q` is rewritten to
the root's trace id `R`; one without a trace id stays without; and in the
normalized `w9d` output the alert record carries the root's trace id. -/
theorem c10_nonproc_rewrite_witness :
    (fixNonProc (some "R") w10r).traceId = some "R" ∧
    (fixNonProc (some "R") w10none).traceId = none ∧
    (w9A.traceId = (3, w9P1).2.traceId ∨ isTruthyStr w9A.traceId = false) :=
  ⟨c10_nonproc_rewrite.1 (some "R") w10r "q" rfl (by decide) (by decide),
   c10_nonproc_rewrite.2.1 (some "R") w10none rfl,
   c10_nonproc_rewrite.2.2 w9d (3, w9P1) (by decide) w9A (by decide) (by decide)⟩

end ProcChain
